import Mathlib

/-!
ESScriptGO: a shallow embedding of `main.go`.

The interpreter of `src/main.go` is embedded function by function.

* Go strings are lists of characters (`List Char`), one list element per token that
  `strings.Split(s, "")` yields on valid UTF-8 text.  `len` is the UTF-8 byte length
  (`goLen`).  The byte loops of `isNumber` and `parseNumber` are run on the character
  codes; on ASCII text, the only text these byte loops accept or are called with by
  `main`, the two coincide.
* `int64` values are integers, and every operation of the source that can overflow is
  followed by `wrap64`, the reduction to 64-bit two's complement.
* `byte` values are `Fin 256`; `byte(v)` is `toByte v`.
* The package-level variables `vars`, `cvars`, `memVar`, `memCVar` and the two standard
  streams form an explicit `State`.  A function that can panic returns its result (or
  the fault) together with the state in force at that point.
* The unbounded `for` loop of `execute` is run with a fuel bound on the number of loop
  bodies executed.
-/

set_option linter.unusedVariables false
set_option maxRecDepth 8192

namespace ESScript

/-! ## Machine integers -/

/-- Reduction of an integer to the signed 64-bit range (Go `int64` wrap-around). -/
def wrap64 (x : Int) : Int :=
  (x + 9223372036854775808) % 18446744073709551616 - 9223372036854775808

/-- The values an `int64` can hold. -/
def IsInt64 (x : Int) : Prop := -9223372036854775808 ≤ x ∧ x < 9223372036854775808

instance (x : Int) : Decidable (IsInt64 x) := by unfold IsInt64; infer_instance

/-- A Go `byte`. -/
abbrev Byte := Fin 256

/-- Go conversion `byte(value)` of an `int64`: the low eight bits. -/
def toByte (value : Int) : Byte := ⟨(value % 256).toNat, by omega⟩

/-! ## Data model (`Sign`, `SideType`, `Line`) -/

inductive Sign where
  | SignWrite
  | SignIf
  | SignAdd
  | SignSubtract
  | SignMultiply
  | SignDivide
  deriving DecidableEq, Repr

inductive SideType where
  | SideSTDInput
  | SideSTDOutput
  | SideOutputRaw
  | SideVar
  | SideCVar
  | SideCharacter
  | SideNumber
  | SideLineNumber
  | SideNewLineChar
  | SideNestedVar
  | SideNestedCVar
  deriving DecidableEq, Repr

open Sign SideType

/-- Every way the program can abort: the four `log.Panic` families of the source and the
two Go runtime panics it can run into. -/
inductive Fault where
  /-- The panic `log.Panic("Invalid command! ...")` of `main`. -/
  | invalidCommand
  /-- The `log.Panic` calls of `parseSide`. -/
  | malformedOperand
  /-- The `log.Panic` calls after `isInput` / `isOutput` in `main`. -/
  | operandRoleViolation
  /-- The panics `log.Panic(lineNum, " unclamped variable access")` and
  `log.Panic("NESTED VALUE PARSER: UNCLAMPED ACCESS!")`. -/
  | unclampedAccess
  /-- Go runtime panic: index out of range. -/
  | indexOutOfRange
  /-- Go runtime panic: integer divide by zero. -/
  | divideByZero
  deriving DecidableEq, Repr

deriving instance DecidableEq for Except

def isInput (sideType : SideType) : Bool :=
  if sideType = SideSTDInput ∨
      sideType = SideVar ∨
      sideType = SideCVar ∨
      sideType = SideCharacter ∨
      sideType = SideNumber ∨
      sideType = SideLineNumber ∨
      sideType = SideNewLineChar ∨
      sideType = SideNestedVar ∨
      sideType = SideNestedCVar then true
  else false

def isOutput (sideType : SideType) : Bool :=
  if sideType = SideSTDOutput ∨
      sideType = SideOutputRaw ∨
      sideType = SideVar ∨
      sideType = SideCVar ∨
      sideType = SideNestedVar ∨
      sideType = SideNestedCVar then true
  else false

/-- Go `len(content)`: the number of bytes of the UTF-8 encoding. -/
def goLen (content : List Char) : Nat := (content.map Char.utf8Size).sum

/-- Loop of `isNumber`, `i` being the loop index. -/
def isNumberFrom : Nat → List Char → Bool
  | _, [] => true
  | i, firstChar :: rest =>
    if (firstChar.toNat ≥ 48 ∧ firstChar.toNat ≤ 57) ∨ (firstChar.toNat = 45 ∧ i = 0) then
      isNumberFrom (i + 1) rest
    else false

def isNumber (content : List Char) : Bool := isNumberFrom 0 content

/-- Loop of `parseNumber`, `i` being the loop index; the pair is
`(isNegative, currentNumber)`. -/
def parseNumberFrom : Nat → List Char → Bool × Int → Bool × Int
  | _, [], acc => acc
  | i, char :: rest, (isNegative, currentNumber) =>
    if char.toNat = 45 ∧ i = 0 then
      parseNumberFrom (i + 1) rest (true, currentNumber)
    else
      parseNumberFrom (i + 1) rest
        (isNegative, wrap64 (wrap64 (currentNumber * 10) + ((char.toNat : Int) - 48)))

def parseNumber (content : List Char) : Int :=
  let r := parseNumberFrom 0 content (false, 0)
  if r.1 then wrap64 (r.2 * -1) else r.2

/-- Loop of `checkNestedValidity`; the flag is `reachedNumber`. -/
def checkNestedValidityFrom : List Char → Bool → Bool
  | [], _ => true
  | ch :: rest, reachedNumber =>
    if (ch = 'v' ∨ ch = 'c') ∧ reachedNumber = false then
      checkNestedValidityFrom rest reachedNumber
    else if isNumber [ch] then checkNestedValidityFrom rest true
    else false

def checkNestedValidity (content : List Char) : Bool := checkNestedValidityFrom content false

/-- The function `parseSide`; the result is `(kind, parameter, isNested)`.  An empty
`content` makes `individualChars[0]` panic in the Go runtime. -/
def parseSide (content : List Char) (lineNum : Int) (side : Int) :
    Except Fault (SideType × Int × Bool) :=
  match content with
  | [] => .error .indexOutOfRange
  | first :: rest =>
    if first = 'v' then
      if isNumber rest then .ok (SideVar, parseNumber rest, false)
      else if checkNestedValidity rest then .ok (SideNestedVar, 0, true)
      else .error .malformedOperand
    else if first = 'c' then
      if isNumber rest then .ok (SideCVar, parseNumber rest, false)
      else if checkNestedValidity rest then .ok (SideNestedCVar, 0, true)
      else .error .malformedOperand
    else if first = 'i' then
      if goLen content = 1 then .ok (SideSTDInput, 0, false) else .error .malformedOperand
    else if first = 'o' then
      if goLen content = 1 then .ok (SideSTDOutput, 0, false) else .error .malformedOperand
    else if first = 'r' then
      if goLen content = 1 then .ok (SideOutputRaw, 0, false) else .error .malformedOperand
    else if first = 'l' then
      if goLen content = 1 then .ok (SideLineNumber, 0, false) else .error .malformedOperand
    else if first = 'n' then
      if goLen content = 1 then .ok (SideNewLineChar, 0, false) else .error .malformedOperand
    else if first = '\\' then
      if goLen content = 2 then
        match rest with
        | x :: _ => .ok (SideCharacter, (x.toNat : Int), false)
        | [] => .error .indexOutOfRange
      else .error .malformedOperand
    else
      if isNumber content then .ok (SideNumber, parseNumber content, false)
      else .error .malformedOperand

structure Line where
  left : SideType
  leftParam : Int
  sign : Sign
  right : SideType
  rightParam : Int
  hasCode : Bool
  lineNum : Int
  leftNest : List Char
  rightNest : List Char
  deriving DecidableEq, Repr

/-- The Go zero value `Line{}`. -/
def Line.zero : Line :=
  { left := SideSTDInput, leftParam := 0, sign := SignWrite, right := SideSTDInput,
    rightParam := 0, hasCode := false, lineNum := 0, leftNest := [], rightNest := [] }

/-! ## Run-time state -/

/-- What the program writes on standard output. -/
inductive Output where
  /-- The prompt `fmt.Print("< ")`. -/
  | prompt
  /-- The line `fmt.Println(">", value)`. -/
  | number (value : Int)
  /-- One byte through `os.Stdout.Write`. -/
  | raw (b : Byte)
  deriving DecidableEq, Repr

/-- The package-level variables and the standard streams.  `stdin` holds the integers
`fmt.Scan` will deliver (a failed scan leaves `inp` at 0). -/
structure State where
  vars : Int
  cvars : Int
  memVar : List Int
  memCVar : List Byte
  stdin : List Int
  stdout : List Output
  deriving DecidableEq, Repr

/-- The allocation of `main`: `memVar = make([]int64, vars)`, `memCVar = make([]byte, cvars)`. -/
def State.Allocated (s : State) : Prop :=
  s.vars = s.memVar.length ∧ s.cvars = s.memCVar.length

instance (s : State) : Decidable s.Allocated := by unfold State.Allocated; infer_instance

/-- Go slice read `mem[i]` with an `int64` index; `none` is the runtime panic. -/
def goIndex {α : Type} (mem : List α) (i : Int) : Option α :=
  if i < 0 then none else mem[i.toNat]?

/-- Go slice write `mem[i] = v` with an `int64` index; `none` is the runtime panic. -/
def goStore {α : Type} (mem : List α) (i : Int) (v : α) : Option (List α) :=
  if 0 ≤ i ∧ i.toNat < mem.length then some (mem.set i.toNat v) else none

/-- Second loop of `resolveNumberFromNest`, over the tokens from last to first. -/
def derefLoop (s : State) : List Char → Int → Except Fault Int
  | [], lastNumber => .ok lastNumber
  | t :: rest, lastNumber =>
    if t = 'c' then
      if lastNumber < 0 ∨ lastNumber > s.cvars - 1 then .error .unclampedAccess
      else
        match goIndex s.memCVar lastNumber with
        | none => .error .indexOutOfRange
        | some b => derefLoop s rest (b.val : Int)
    else if t = 'v' then
      if lastNumber < 0 ∨ lastNumber > s.vars - 1 then .error .unclampedAccess
      else
        match goIndex s.memVar lastNumber with
        | none => .error .indexOutOfRange
        | some v => derefLoop s rest v
    else derefLoop s rest lastNumber

/-- The function `resolveNumberFromNest`.  The first loop cuts `nest` at the first token
that is neither `c` nor `v`; when there is none `lastNumber` stays 0. -/
def resolveNumberFromNest (s : State) (nest : List Char) : Except Fault Int :=
  let tokens := nest.takeWhile (fun t => t = 'c' ∨ t = 'v')
  let otherTokens := nest.dropWhile (fun t => t = 'c' ∨ t = 'v')
  let lastNumber := if otherTokens = [] then 0 else parseNumber otherTokens
  derefLoop s tokens.reverse lastNumber

def readInput (side : SideType) (param : Int) (nest : List Char) (lineNum : Int)
    (s : State) : Except Fault Int × State :=
  match side with
  | SideSTDInput =>
    (.ok (s.stdin.headD 0), { s with stdout := s.stdout ++ [Output.prompt], stdin := s.stdin.tail })
  | SideVar =>
    if param < 0 ∨ param > s.vars then (.error .unclampedAccess, s)
    else
      match goIndex s.memVar param with
      | none => (.error .indexOutOfRange, s)
      | some v => (.ok v, s)
  | SideCVar =>
    if param < 0 ∨ param > s.cvars then (.error .unclampedAccess, s)
    else
      match goIndex s.memCVar param with
      | none => (.error .indexOutOfRange, s)
      | some b => (.ok (b.val : Int), s)
  | SideCharacter => (.ok param, s)
  | SideNumber => (.ok param, s)
  | SideLineNumber => (.ok lineNum, s)
  | SideNewLineChar => (.ok 10, s)
  | SideNestedVar =>
    match resolveNumberFromNest s nest with
    | .error f => (.error f, s)
    | .ok index =>
      match goIndex s.memVar index with
      | none => (.error .indexOutOfRange, s)
      | some v => (.ok v, s)
  | SideNestedCVar =>
    match resolveNumberFromNest s nest with
    | .error f => (.error f, s)
    | .ok index =>
      match goIndex s.memCVar index with
      | none => (.error .indexOutOfRange, s)
      | some b => (.ok (b.val : Int), s)
  | _ => (.ok 0, s)

def writeOutput (side : SideType) (param : Int) (nest : List Char) (value : Int)
    (lineNum : Int) (s : State) : Except Fault Unit × State :=
  match side with
  | SideSTDOutput => (.ok (), { s with stdout := s.stdout ++ [Output.number value] })
  | SideOutputRaw => (.ok (), { s with stdout := s.stdout ++ [Output.raw (toByte value)] })
  | SideVar =>
    if param < 0 ∨ param > s.vars then (.error .unclampedAccess, s)
    else
      match goStore s.memVar param value with
      | none => (.error .indexOutOfRange, s)
      | some mem => (.ok (), { s with memVar := mem })
  | SideCVar =>
    if param < 0 ∨ param > s.cvars then (.error .unclampedAccess, s)
    else
      match goStore s.memCVar param (toByte value) with
      | none => (.error .indexOutOfRange, s)
      | some mem => (.ok (), { s with memCVar := mem })
  | SideNestedVar =>
    match resolveNumberFromNest s nest with
    | .error f => (.error f, s)
    | .ok index =>
      match goStore s.memVar index value with
      | none => (.error .indexOutOfRange, s)
      | some mem => (.ok (), { s with memVar := mem })
  | SideNestedCVar =>
    match resolveNumberFromNest s nest with
    | .error f => (.error f, s)
    | .ok index =>
      match goStore s.memCVar index (toByte value) with
      | none => (.error .indexOutOfRange, s)
      | some mem => (.ok (), { s with memCVar := mem })
  | _ => (.ok (), s)

/-! ## The execution engine -/

/-- The two reads every case of the `switch` but `SignWrite` starts with: left operand
first, then right operand. -/
def readBoth (workingLine : Line) (s : State) : Except Fault (Int × Int) × State :=
  match readInput workingLine.left workingLine.leftParam workingLine.leftNest
      workingLine.lineNum s with
  | (.error f, s1) => (.error f, s1)
  | (.ok a, s1) =>
    match readInput workingLine.right workingLine.rightParam workingLine.rightNest
        workingLine.lineNum s1 with
    | (.error f, s2) => (.error f, s2)
    | (.ok b, s2) => (.ok (a, b), s2)

/-- The value an arithmetic case hands to `writeOutput`, `a` read from the left operand
and `b` from the right one; Go panics on an integer division by zero. -/
def arithValue (sign : Sign) (a b : Int) : Except Fault Int :=
  match sign with
  | SignAdd => .ok (wrap64 (a + b))
  | SignSubtract => .ok (wrap64 (b - a))
  | SignMultiply => .ok (wrap64 (b * a))
  | SignDivide => if a = 0 then .error .divideByZero else .ok (wrap64 (Int.tdiv b a))
  | _ => .ok a

/-- One body of the `for` loop of `execute` on the fetched `workingLine`; the result is
the next value of `currentLine`.  The increment cannot overflow: the body only runs with
`currentLine < len(parsedLines)`. -/
def stepLine (workingLine : Line) (currentLine : Int) (s : State) :
    Except Fault Int × State :=
  if workingLine.hasCode then
    match workingLine.sign with
    | SignWrite =>
      match readInput workingLine.left workingLine.leftParam workingLine.leftNest
          workingLine.lineNum s with
      | (.error f, s1) => (.error f, s1)
      | (.ok a, s1) =>
        match writeOutput workingLine.right workingLine.rightParam workingLine.rightNest a
            workingLine.lineNum s1 with
        | (.error f, s2) => (.error f, s2)
        | (.ok _, s2) => (.ok (currentLine + 1), s2)
    | SignIf =>
      match readBoth workingLine s with
      | (.error f, s2) => (.error f, s2)
      | (.ok (a, b), s2) =>
        if a > 0 then (.ok (wrap64 (b - 1)), s2) else (.ok (currentLine + 1), s2)
    | sign =>
      match readBoth workingLine s with
      | (.error f, s2) => (.error f, s2)
      | (.ok (a, b), s2) =>
        match arithValue sign a b with
        | .error f => (.error f, s2)
        | .ok value =>
          match writeOutput workingLine.right workingLine.rightParam workingLine.rightNest
              value workingLine.lineNum s2 with
          | (.error f, s3) => (.error f, s3)
          | (.ok _, s3) => (.ok (currentLine + 1), s3)
  else (.ok (currentLine + 1), s)

/-- How a run of `execute` ends. -/
inductive Outcome where
  /-- The loop guard broke out of the loop. -/
  | halted
  /-- A panic. -/
  | fault (f : Fault)
  /-- The fuel bound was reached with the loop still running. -/
  | outOfFuel
  deriving DecidableEq, Repr

/-- Result of a run: how it ended, the state then, and how many instructions were
fetched. -/
structure Run where
  outcome : Outcome
  final : State
  fetched : Nat
  deriving DecidableEq, Repr

/-- The guard at the head of the loop of `execute`: true when the loop breaks. -/
def loopExit (parsedLines : List Line) (currentLine : Int) : Bool :=
  decide (currentLine ≥ (parsedLines.length : Int) ∨ currentLine < 1)

/-- The instruction the loop fetches at `currentLine`, if the guard lets it. -/
def fetch (parsedLines : List Line) (currentLine : Int) : Option Line :=
  if loopExit parsedLines currentLine then none else goIndex parsedLines currentLine

/-- The `for` loop of `execute`, from `currentLine`, with `n` instructions fetched so
far; the first argument bounds the number of bodies run. -/
def execLoop (parsedLines : List Line) : Nat → Int → State → Nat → Run
  | 0, currentLine, s, n =>
    if loopExit parsedLines currentLine then ⟨.halted, s, n⟩ else ⟨.outOfFuel, s, n⟩
  | fuel + 1, currentLine, s, n =>
    if loopExit parsedLines currentLine then ⟨.halted, s, n⟩
    else
      match goIndex parsedLines currentLine with
      | none => ⟨.fault .indexOutOfRange, s, n⟩
      | some workingLine =>
        match stepLine workingLine currentLine s with
        | (.error f, s1) => ⟨.fault f, s1, n + 1⟩
        | (.ok next, s1) => execLoop parsedLines fuel next s1 (n + 1)

/-- The function `execute`: `currentLine` starts at 0. -/
def execute (fuel : Nat) (parsedLines : List Line) (s : State) : Run :=
  execLoop parsedLines fuel 0 s 0

/-! ## The loader (`main`) -/

/-- The mutable variables of the character scan of one line. -/
structure Scan where
  previousChar : List Char
  currentSide : Nat
  leftSide : List Char
  command : List Char
  rightSide : List Char
  hasCode : Bool
  deriving DecidableEq, Repr

/-- The variables as they are set before the scan: empty strings, `currentSide = 0`,
`hasCode = false`. -/
def Scan.init : Scan :=
  { previousChar := [], currentSide := 0, leftSide := [], command := [], rightSide := [],
    hasCode := false }

/-- One body of the scan loop on `character`; the flag tells whether the body left the
loop through `break`. -/
def scanBody (character : Char) (st : Scan) : Scan × Bool :=
  if character = '/' ∧ st.previousChar = ['/'] then
    (if st.currentSide ≠ 2 then { st with hasCode := false } else st, true)
  else if st.currentSide = 2 ∧ character = ';' then
    ({ st with hasCode := true }, true)
  else
    let st1 := if st.currentSide = 2 then { st with rightSide := st.rightSide ++ [character] } else st
    let st2 := if st1.currentSide = 1 then { st1 with command := [character], currentSide := 2 } else st1
    let st3 :=
      if st2.currentSide = 0 then
        if character = '>' ∧ st2.previousChar ≠ ['\\'] then { st2 with currentSide := 1 }
        else { st2 with leftSide := st2.leftSide ++ [character] }
      else st2
    ({ st3 with previousChar := [character] }, false)

/-- The scan loop `for _, character := range chars`. -/
def scanChars : List Char → Scan → Scan
  | [], st => st
  | character :: rest, st =>
    match scanBody character st with
    | (st1, true) => st1
    | (st1, false) => scanChars rest st1

/-- Step 3 of the loop of `main`: the `switch command`. -/
def signOfCommand (command : List Char) : Except Fault Sign :=
  if command = ['>'] then .ok SignWrite
  else if command = ['?'] then .ok SignIf
  else if command = ['+'] then .ok SignAdd
  else if command = ['-'] then .ok SignSubtract
  else if command = ['*'] then .ok SignMultiply
  else if command = ['/'] then .ok SignDivide
  else .error .invalidCommand

/-- The check of the right operand in step 5. -/
def rightRoleOk (sign : Sign) (rside : SideType) : Bool :=
  if sign = SignIf then isInput rside
  else if sign = SignAdd ∨ sign = SignSubtract ∨ sign = SignMultiply ∨ sign = SignDivide then
    isOutput rside && isInput rside
  else isOutput rside

/-- One body of the loop of `main` over the lines: the instruction stored in
`parsedLines[index]`, or the panic that stops the load. -/
def parseLine (index : Nat) (element : List Char) : Except Fault Line :=
  let thisLine : Line := { Line.zero with hasCode := false, lineNum := (index : Int) }
  let st := scanChars element Scan.init
  if st.hasCode then
    match signOfCommand st.command with
    | .error f => .error f
    | .ok sign =>
      match parseSide st.leftSide thisLine.lineNum 0 with
      | .error f => .error f
      | .ok (lside, lmeta, isNested) =>
        if isInput lside = false then .error .operandRoleViolation
        else
          let leftNest := if isNested then st.leftSide.drop 1 else []
          match parseSide st.rightSide thisLine.lineNum 0 with
          | .error f => .error f
          | .ok (rside, rmeta, isNested) =>
            if rightRoleOk sign rside = false then .error .operandRoleViolation
            else
              let rightNest := if isNested then st.rightSide.drop 1 else []
              .ok { left := lside, leftParam := lmeta, sign := sign, right := rside,
                    rightParam := rmeta, hasCode := true, lineNum := thisLine.lineNum + 1,
                    leftNest := leftNest, rightNest := rightNest }
  else .ok { thisLine with lineNum := thisLine.lineNum + 1 }

/-- The loop of `main` over the lines, from slot `index` on. -/
def parseLinesFrom : Nat → List (List Char) → Except Fault (List Line)
  | _, [] => .ok []
  | index, element :: rest =>
    match parseLine index element with
    | .error f => .error f
    | .ok line =>
      match parseLinesFrom (index + 1) rest with
      | .error f => .error f
      | .ok lines => .ok (line :: lines)

/-- The program `main` builds from the lines of the script. -/
def parseLines (lines : List (List Char)) : Except Fault (List Line) := parseLinesFrom 0 lines

/-- The memory `main` allocates, zero-initialised, with the given standard input. -/
def initialState (vars cvars : Nat) (stdin : List Int) : State :=
  { vars := vars, cvars := cvars, memVar := List.replicate vars 0,
    memCVar := List.replicate cvars 0, stdin := stdin, stdout := [] }

/-! ## Cells of memory -/

/-- A cell of one of the two arrays. -/
inductive Cell where
  | var (index : Int)
  | cvar (index : Int)
  deriving DecidableEq, Repr

/-- The cell an operand of one of the four memory kinds addresses in state `s`: the
index `readInput` and `writeOutput` use on `memVar` or `memCVar`. -/
def cellOf (side : SideType) (param : Int) (nest : List Char) (s : State) : Option Cell :=
  match side with
  | SideVar => some (Cell.var param)
  | SideCVar => some (Cell.cvar param)
  | SideNestedVar =>
    match resolveNumberFromNest s nest with
    | .ok index => some (Cell.var index)
    | .error _ => none
  | SideNestedCVar =>
    match resolveNumberFromNest s nest with
    | .ok index => some (Cell.cvar index)
    | .error _ => none
  | _ => none

/-- The content of a cell, as an `int64`; `none` when the index is outside the array. -/
def State.cell (s : State) : Cell → Option Int
  | Cell.var index => goIndex s.memVar index
  | Cell.cvar index => (goIndex s.memCVar index).map (fun b => (b.val : Int))

/-! ## Reference notions of the specification -/

/-- The operator table of the language: the operator a one-character token stands for. -/
def operatorTable (c : Char) : Option Sign :=
  if c = '>' then some SignWrite
  else if c = '?' then some SignIf
  else if c = '+' then some SignAdd
  else if c = '-' then some SignSubtract
  else if c = '*' then some SignMultiply
  else if c = '/' then some SignDivide
  else none

/-- Position `i` of the line holds the first `>` that has no `\` right before it. -/
def FirstUnescapedGt (element : List Char) (i : Nat) : Prop :=
  element[i]? = some '>' ∧ (i = 0 ∨ element[i - 1]? ≠ some '\\') ∧
    ∀ j, j < i → element[j]? = some '>' → 0 < j ∧ element[j - 1]? = some '\\'


/-- A script whose second line jumps to source line 1. -/
def jumpToFirstExample : List (List Char) := ["1>>o;".toList, "1>?1;".toList]

/-- The program `parseLines` builds from `jumpToFirstExample`. -/
def jumpToFirstProgram : List Line :=
  [{ left := SideNumber, leftParam := 1, sign := SignWrite, right := SideSTDOutput,
     rightParam := 0, hasCode := true, lineNum := 1, leftNest := [], rightNest := [] },
   { left := SideNumber, leftParam := 1, sign := SignIf, right := SideNumber,
     rightParam := 1, hasCode := true, lineNum := 2, leftNest := [], rightNest := [] }]


/-- A decimal digit. -/
def IsDigit (c : Char) : Prop := 48 ≤ c.toNat ∧ c.toNat ≤ 57

instance (c : Char) : Decidable (IsDigit c) := by unfold IsDigit; infer_instance

/-- The number a string of decimal digits denotes. -/
def decimalValue (d : List Char) : Nat := d.foldl (fun n c => 10 * n + (c.toNat - 48)) 0

/-- The resolver as the specification defines it, by recursion on the letters of the
chain from the outermost one, above the value `base` of the digits: a `v` gives
`memVar[i]` and a `c` gives `memCVar[i]` widened, `i` being what the rest of the chain
resolves to, when `i` lies in `[0, length)` of that array, and the unclamped-access fault
otherwise. -/
def resolveSpec (s : State) : List Char → Int → Except Fault Int
  | [], base => .ok base
  | letter :: rest, base =>
    match resolveSpec s rest base with
    | .error f => .error f
    | .ok i =>
      if letter = 'v' then
        if 0 ≤ i ∧ i < (s.memVar.length : Int) then .ok (s.memVar.getD i.toNat 0)
        else .error .unclampedAccess
      else
        if 0 ≤ i ∧ i < (s.memCVar.length : Int) then
          .ok ((s.memCVar.getD i.toNat 0).val : Int)
        else .error .unclampedAccess


/-- The source-capable kinds of the specification. -/
def sourceCapable (kind : SideType) : Bool :=
  [SideSTDInput, SideVar, SideCVar, SideCharacter, SideNumber, SideLineNumber,
    SideNewLineChar, SideNestedVar, SideNestedCVar].contains kind

/-- The sink-capable kinds of the specification. -/
def sinkCapable (kind : SideType) : Bool :=
  [SideSTDOutput, SideOutputRaw, SideVar, SideCVar, SideNestedVar, SideNestedCVar].contains kind

/-- The operand-role table of the specification: the left operand is a source; the right
operand is a sink for Move, a source for JumpIfPositive, and both for the four arithmetic
operators. -/
def roleTable (sign : Sign) (lkind rkind : SideType) : Bool :=
  sourceCapable lkind &&
    (match sign with
      | SignWrite => sinkCapable rkind
      | SignIf => sourceCapable rkind
      | _ => sourceCapable rkind && sinkCapable rkind)


/-- Decimal digits of `n`, most significant first; the first argument bounds their
number. -/
def renderNatFuel : Nat → Nat → List Char
  | 0, _ => []
  | fuel + 1, n =>
    if n < 10 then [Char.ofNat (48 + n)]
    else renderNatFuel fuel (n / 10) ++ [Char.ofNat (48 + n % 10)]

/-- The canonical decimal rendering of a natural number. -/
def renderNat (n : Nat) : List Char := renderNatFuel (n + 1) n

/-- The canonical signed decimal rendering of an integer: a `-` in front of the digits of
a negative number, no sign otherwise. -/
def renderInt (n : Int) : List Char :=
  if n < 0 then '-' :: renderNat n.natAbs else renderNat n.toNat


/-- A script of two lines, each writing its own number to standard output. -/
def twoLineExample : List (List Char) := ["1>>o;".toList, "2>>o;".toList]

/-- The program `parseLines` builds from `twoLineExample`. -/
def twoLineProgram : List Line :=
  [{ left := SideNumber, leftParam := 1, sign := SignWrite, right := SideSTDOutput,
     rightParam := 0, hasCode := true, lineNum := 1, leftNest := [], rightNest := [] },
   { left := SideNumber, leftParam := 2, sign := SignWrite, right := SideSTDOutput,
     rightParam := 0, hasCode := true, lineNum := 2, leftNest := [], rightNest := [] }]

/-- A script whose second line writes its own line number to standard output. -/
def lineNumberExample : List (List Char) := ["".toList, "l>>o;".toList]

/-- The instruction of `l>>o;` on source line 2. -/
def lineNumberLine : Line :=
  { left := SideLineNumber, leftParam := 0, sign := SignWrite, right := SideSTDOutput,
    rightParam := 0, hasCode := true, lineNum := 2, leftNest := [], rightNest := [] }

/-- The program `parseLines` builds from `lineNumberExample`. -/
def lineNumberProgram : List Line := [{ Line.zero with lineNum := 1 }, lineNumberLine]

end ESScript

/-! # Theorems -/

namespace ESScript
open Sign SideType

/-! ## The loop guard at program start -/

/-- C1: for every program and every initial state, `execute` (whose `currentLine` starts
at 0 and whose guard breaks on `currentLine < 1`) halts without fetching an instruction,
whatever the fuel: the run ends as `halted`, the final state (both memory arrays and both
streams) is the initial one, and the number of instructions fetched is 0. -/
theorem execute_halts_before_first_fetch (fuel : Nat) (parsedLines : List Line) (s : State) :
    execute fuel parsedLines s = { outcome := Outcome.halted, final := s, fetched := 0 } := by
  cases fuel <;> simp [execute, execLoop, loopExit]

/-! ## Example 1: moving a literal into a variable -/

/-- C2 (as stated): the line `100>v0;` is not parsed to an instruction; its operator
character is `v` and the load stops with the invalid-command panic. -/
theorem parse_100_gt_v0_is_invalid_command :
    parseLine 0 "100>v0;".toList = Except.error Fault.invalidCommand := by
  decide

/-- C2 (amended): the line `100>>v0;`, at any position of the script, parses to an
executable Move instruction with left operand the number literal 100 and right operand
variable 0, and executing it on any allocated memory with at least one variable completes,
advances `currentLine` by one and leaves `memVar[0] = 100`, nothing else being changed. -/
theorem move_literal_into_variable (index : Nat) (currentLine : Int) (s : State)
    (halloc : s.Allocated) (hvars : 1 ≤ s.vars) :
    parseLine index "100>>v0;".toList =
        Except.ok { left := SideNumber, leftParam := 100, sign := SignWrite, right := SideVar,
                    rightParam := 0, hasCode := true, lineNum := (index : Int) + 1,
                    leftNest := [], rightNest := [] } ∧
      stepLine { left := SideNumber, leftParam := 100, sign := SignWrite, right := SideVar,
                 rightParam := 0, hasCode := true, lineNum := (index : Int) + 1,
                 leftNest := [], rightNest := [] } currentLine s =
        (Except.ok (currentLine + 1), { s with memVar := s.memVar.set 0 100 }) ∧
      (s.memVar.set 0 100)[0]? = some 100 := by
  obtain ⟨hv, _⟩ := halloc
  have hlen : 0 < s.memVar.length := by omega
  refine ⟨rfl, ?_, ?_⟩
  · have h1 : ¬ (0 : Int) > s.vars := by omega
    simp [stepLine, readInput, writeOutput, goStore, h1, hlen]
  · simp [hlen]

/-- Witness for `move_literal_into_variable`: the first line of a script, run on the
zero-initialised memory of two variables. -/
theorem move_literal_into_variable_witness :
    (initialState 2 1 []).Allocated ∧ (1 : Int) ≤ (initialState 2 1 []).vars ∧
      stepLine { left := SideNumber, leftParam := 100, sign := SignWrite, right := SideVar,
                 rightParam := 0, hasCode := true, lineNum := ((0 : Nat) : Int) + 1,
                 leftNest := [], rightNest := [] } 1 (initialState 2 1 []) =
        (Except.ok (1 + 1),
          { initialState 2 1 [] with memVar := (initialState 2 1 []).memVar.set 0 100 }) :=
  ⟨by decide, by decide,
    (move_literal_into_variable 0 1 (initialState 2 1 []) (by decide) (by decide)).2.1⟩

/-! ## The operator of an executable line -/

theorem scanChars_right_command (rest : List Char) :
    ∀ st : Scan, st.currentSide = 2 → (scanChars rest st).command = st.command := by
  induction rest with
  | nil => intro st _; rfl
  | cons ch rest ih =>
    intro st h2
    obtain ⟨prev, side, l, cmd, r, hc⟩ := st
    simp only at h2
    subst h2
    unfold scanChars scanBody
    by_cases hcom : ch = '/' ∧ prev = ['/']
    · simp [hcom]
    · by_cases hsemi : ch = ';'
      · simp [hcom, hsemi]
      · simp only [hcom, hsemi]
        simp
        rw [ih _ rfl]

theorem scanChars_command_phase (rest : List Char) (st : Scan) (h1 : st.currentSide = 1)
    (hprev : st.previousChar = ['>']) (hc : st.hasCode = false)
    (h : (scanChars rest st).hasCode = true) :
    ∃ c rest1, rest = c :: rest1 ∧ (scanChars rest st).command = [c] := by
  obtain ⟨prev, side, l, cmd, r, hcode⟩ := st
  simp only at h1 hprev hc
  subst h1 hprev hc
  cases rest with
  | nil => simp [scanChars] at h
  | cons c rest1 =>
    refine ⟨c, rest1, rfl, ?_⟩
    unfold scanChars scanBody
    simp
    rw [scanChars_right_command _ _ rfl]

theorem scanBody_left_phase (ch : Char) (prev l cmd r : List Char) :
    scanBody ch { previousChar := prev, currentSide := 0, leftSide := l, command := cmd,
                  rightSide := r, hasCode := false } =
      if ch = '/' ∧ prev = ['/'] then
        ({ previousChar := prev, currentSide := 0, leftSide := l, command := cmd,
           rightSide := r, hasCode := false }, true)
      else if ch = '>' ∧ prev ≠ ['\\'] then
        ({ previousChar := [ch], currentSide := 1, leftSide := l, command := cmd,
           rightSide := r, hasCode := false }, false)
      else
        ({ previousChar := [ch], currentSide := 0, leftSide := l ++ [ch], command := cmd,
           rightSide := r, hasCode := false }, false) := by
  unfold scanBody
  by_cases hcom : ch = '/' ∧ prev = ['/']
  · simp [hcom]
  · by_cases hgt : ch = '>' ∧ prev ≠ ['\\']
    · rw [if_neg hcom, if_neg hcom, if_pos hgt]
      simp [hgt.1, hgt.2]
    · rw [if_neg hcom, if_neg hcom, if_neg hgt]
      simp only [Nat.reduceEqDiff, false_and, if_false, OfNat.zero_ne_ofNat, if_true, ne_eq]
      have hgt2 : ¬ (ch = '>' ∧ ¬ prev = ['\\']) := hgt
      rw [if_neg hgt2]

theorem scanChars_left_phase (element : List Char) (rest : List Char) :
    ∀ (pre : List Char) (st : Scan), element = pre ++ rest → st.currentSide = 0 →
      st.hasCode = false → st.previousChar = pre.getLast?.toList →
      (∀ j, j < pre.length → element[j]? = some '>' → 0 < j ∧ element[j - 1]? = some '\\') →
      (scanChars rest st).hasCode = true →
      ∃ i c, FirstUnescapedGt element i ∧ element[i + 1]? = some c ∧
        (scanChars rest st).command = [c] := by
  induction rest with
  | nil =>
    intro pre st _ _ hc _ _ h
    simp [scanChars, hc] at h
  | cons ch rest ih =>
    intro pre st hel h0 hc hprev hno h
    obtain ⟨prev, side, l, cmd, r, hcode⟩ := st
    simp only at h0 hc hprev
    subst h0 hc
    have hlast : pre ≠ [] → element[pre.length - 1]? = pre.getLast? := by
      intro hne
      have hlt : pre.length - 1 < pre.length := by
        have := List.length_pos.mpr hne
        omega
      rw [hel, List.getElem?_append_left hlt, List.getLast?_eq_getElem?]
    have hat : element[pre.length]? = some ch := by
      rw [hel, List.getElem?_append_right (Nat.le_refl _)]; simp
    unfold scanChars at h ⊢
    rw [scanBody_left_phase] at h ⊢
    by_cases hcom : ch = '/' ∧ prev = ['/']
    · rw [if_pos hcom] at h
      simp at h
    · by_cases hgt : ch = '>' ∧ prev ≠ ['\\']
      · rw [if_neg hcom, if_pos hgt] at h ⊢
        simp only at h ⊢
        obtain ⟨c, rest1, hrest, hcmd⟩ :=
          scanChars_command_phase rest
            { previousChar := [ch], currentSide := 1, leftSide := l, command := cmd,
              rightSide := r, hasCode := false } rfl (by rw [hgt.1]) rfl h
        refine ⟨pre.length, c, ⟨?_, ?_, hno⟩, ?_, hcmd⟩
        · rw [hat, hgt.1]
        · by_cases hne : pre = []
          · left; simp [hne]
          · right
            rw [hlast hne]
            intro hl
            apply hgt.2
            rw [hprev, hl]; rfl
        · rw [hel, hrest, List.getElem?_append_right (Nat.le_succ _)]; simp
      · rw [if_neg hcom, if_neg hgt] at h ⊢
        simp only at h ⊢
        refine ih (pre ++ [ch]) _ (by simp [hel]) rfl rfl (by simp) ?_ h
        intro j hj hjgt
        by_cases hjlt : j < pre.length
        · exact hno j hjlt hjgt
        · have hje : j = pre.length := by
            simp at hj; omega
          subst hje
          rw [hat] at hjgt
          have hch : ch = '>' := by simpa using hjgt
          have hp : prev = ['\\'] := by
            by_contra hp
            exact hgt ⟨hch, hp⟩
          have hne : pre ≠ [] := by
            intro hnil
            rw [hnil] at hprev
            simp [hp] at hprev
          refine ⟨List.length_pos.mpr hne, ?_⟩
          rw [hlast hne]
          rw [hp] at hprev
          cases hgl : pre.getLast? with
          | none => rw [hgl] at hprev; simp at hprev
          | some p => rw [hgl] at hprev; simp at hprev; rw [hprev]

theorem signOfCommand_single (c : Char) :
    signOfCommand [c] =
      match operatorTable c with
      | some sign => Except.ok sign
      | none => Except.error Fault.invalidCommand := by
  unfold signOfCommand operatorTable
  repeat' split
  all_goals simp_all

theorem parseLine_sign (index : Nat) (element : List Char) (line : Line)
    (h : (scanChars element Scan.init).hasCode = true)
    (hline : parseLine index element = Except.ok line) :
    signOfCommand (scanChars element Scan.init).command = Except.ok line.sign ∧
      line.hasCode = true := by
  unfold parseLine at hline
  simp only [h, if_true] at hline
  split at hline
  · exact absurd hline (by simp)
  · split at hline
    · exact absurd hline (by simp)
    · split at hline
      · exact absurd hline (by simp)
      · split at hline
        · exact absurd hline (by simp)
        · split at hline
          · exact absurd hline (by simp)
          · injection hline with hline
            subst hline
            simp_all

/-- C3: on every line the scan marks executable there is a first `>` not preceded by `\`,
and the character right after it decides the operator through the table (`>` Move, `?`
JumpIfPositive, `+` Add, `-` Subtract, `*` Multiply, `/` Divide): for a character of the
table that operator is the one step 3 selects and the one every instruction produced from
the line carries (with `hasCode = true`); for any other character the load of the line
fails with the invalid-command panic. -/
theorem operator_decided_by_character_after_first_gt (index : Nat) (element : List Char)
    (h : (scanChars element Scan.init).hasCode = true) :
    ∃ i c, FirstUnescapedGt element i ∧ element[i + 1]? = some c ∧
      match operatorTable c with
      | some sign =>
        signOfCommand (scanChars element Scan.init).command = Except.ok sign ∧
          ∀ line, parseLine index element = Except.ok line →
            line.hasCode = true ∧ line.sign = sign
      | none => parseLine index element = Except.error Fault.invalidCommand := by
  obtain ⟨i, c, hfirst, hc, hcmd⟩ :=
    scanChars_left_phase element element [] Scan.init rfl rfl rfl rfl (by simp) h
  refine ⟨i, c, hfirst, hc, ?_⟩
  have hs := signOfCommand_single c
  rw [← hcmd] at hs
  cases htab : operatorTable c with
  | none =>
    rw [htab] at hs
    simp only at hs ⊢
    unfold parseLine
    simp only [h, if_true, hs]
  | some sign =>
    rw [htab] at hs
    simp only at hs ⊢
    refine ⟨hs, ?_⟩
    intro line hline
    obtain ⟨h1, h2⟩ := parseLine_sign index element line h hline
    rw [hs] at h1
    injection h1 with h1
    exact ⟨h2, h1.symm⟩

/-- Witness for `operator_decided_by_character_after_first_gt`: the line `7>+v1;`. -/
theorem operator_decided_by_character_after_first_gt_witness :
    (scanChars "7>+v1;".toList Scan.init).hasCode = true ∧
      ∃ i c, FirstUnescapedGt "7>+v1;".toList i ∧ "7>+v1;".toList[i + 1]? = some c ∧
        match operatorTable c with
        | some sign =>
          signOfCommand (scanChars "7>+v1;".toList Scan.init).command = Except.ok sign ∧
            ∀ line, parseLine 0 "7>+v1;".toList = Except.ok line →
              line.hasCode = true ∧ line.sign = sign
        | none => parseLine 0 "7>+v1;".toList = Except.error Fault.invalidCommand :=
  ⟨by decide, operator_decided_by_character_after_first_gt 0 "7>+v1;".toList (by decide)⟩

/-! ## Reading never changes memory -/

theorem readInput_frame (side : SideType) (param : Int) (nest : List Char) (lineNum : Int)
    (s : State) :
    (readInput side param nest lineNum s).2.memVar = s.memVar ∧
      (readInput side param nest lineNum s).2.memCVar = s.memCVar ∧
      (readInput side param nest lineNum s).2.vars = s.vars ∧
      (readInput side param nest lineNum s).2.cvars = s.cvars := by
  unfold readInput
  cases side <;> simp only <;> (repeat' split) <;> simp

theorem readBoth_frame (workingLine : Line) (s : State) :
    (readBoth workingLine s).2.memVar = s.memVar ∧
      (readBoth workingLine s).2.memCVar = s.memCVar ∧
      (readBoth workingLine s).2.vars = s.vars ∧
      (readBoth workingLine s).2.cvars = s.cvars := by
  have h1 := readInput_frame workingLine.left workingLine.leftParam workingLine.leftNest
    workingLine.lineNum s
  unfold readBoth
  split
  · next f s1 heq => rw [heq] at h1; exact h1
  · next a s1 heq =>
    rw [heq] at h1
    have h2 := readInput_frame workingLine.right workingLine.rightParam workingLine.rightNest
      workingLine.lineNum s1
    split
    · next f s2 heq2 =>
      rw [heq2] at h2
      simp only at h1 h2 ⊢
      exact ⟨h2.1.trans h1.1, h2.2.1.trans h1.2.1, h2.2.2.1.trans h1.2.2.1,
        h2.2.2.2.trans h1.2.2.2⟩
    · next b s2 heq2 =>
      rw [heq2] at h2
      simp only at h1 h2 ⊢
      exact ⟨h2.1.trans h1.1, h2.2.1.trans h1.2.1, h2.2.2.1.trans h1.2.2.1,
        h2.2.2.2.trans h1.2.2.2⟩

/-! ## Source lines of a loaded program -/

theorem parseLine_lineNum (index : Nat) (element : List Char) (line : Line)
    (hline : parseLine index element = Except.ok line) :
    line.lineNum = (index : Int) + 1 := by
  unfold parseLine at hline
  by_cases h : (scanChars element Scan.init).hasCode = true
  · simp only [h, if_true] at hline
    split at hline
    · exact absurd hline (by simp)
    · split at hline
      · exact absurd hline (by simp)
      · split at hline
        · exact absurd hline (by simp)
        · split at hline
          · exact absurd hline (by simp)
          · split at hline
            · exact absurd hline (by simp)
            · injection hline with hline
              subst hline
              rfl
  · simp only [h, if_false] at hline
    injection hline with hline
    subst hline
    rfl

theorem parseLinesFrom_lineNum (lines : List (List Char)) :
    ∀ (index : Nat) (parsedLines : List Line),
      parseLinesFrom index lines = Except.ok parsedLines →
      ∀ (i : Nat) (line : Line), parsedLines[i]? = some line →
        line.lineNum = (index : Int) + i + 1 := by
  induction lines with
  | nil =>
    intro index parsedLines h i line hi
    simp [parseLinesFrom] at h
    subst h
    simp at hi
  | cons element rest ih =>
    intro index parsedLines h i line hi
    unfold parseLinesFrom at h
    split at h
    · exact absurd h (by simp)
    · next first hfirst =>
      split at h
      · exact absurd h (by simp)
      · next others hothers =>
        injection h with h
        subst h
        cases i with
        | zero =>
          simp at hi
          subst hi
          simpa using parseLine_lineNum index element _ hfirst
        | succ k =>
          simp at hi
          have := ih (index + 1) others hothers k line hi
          rw [this]
          push_cast
          ring

theorem parseLines_lineNum (lines : List (List Char)) (parsedLines : List Line)
    (h : parseLines lines = Except.ok parsedLines) (i : Nat) (line : Line)
    (hi : parsedLines[i]? = some line) : line.lineNum = (i : Int) + 1 := by
  have := parseLinesFrom_lineNum lines 0 parsedLines h i line hi
  simpa using this

theorem fetch_eq_some (parsedLines : List Line) (currentLine : Int) (line : Line) :
    fetch parsedLines currentLine = some line ↔
      1 ≤ currentLine ∧ currentLine < parsedLines.length ∧
        parsedLines[currentLine.toNat]? = some line := by
  unfold fetch loopExit goIndex
  by_cases h : currentLine ≥ (parsedLines.length : Int) ∨ currentLine < 1
  · simp only [h, decide_True, if_true]
    constructor
    · intro h'; exact absurd h' (by simp)
    · rintro ⟨h1, h2, _⟩; omega
  · have hneg : ¬ currentLine < 0 := by omega
    simp only [h, decide_False, hneg, if_false]
    constructor
    · intro h'; exact ⟨by omega, by omega, h'⟩
    · rintro ⟨_, _, h'⟩; exact h'
/-! ## JumpIfPositive -/

theorem wrap64_of_isInt64 (x : Int) (h : IsInt64 x) : wrap64 x = x := by
  unfold IsInt64 at h
  unfold wrap64
  omega

/-- C4 (the code on the script `1>>o;`, `1>?1;`): the loader puts the executable
instruction of source line 1 in slot 0 and the JumpIfPositive `1>?1;` in slot 1.  Run from
`currentLine = 1`, the loop fetches the jump, which reads `a = 1 > 0` and `b = 1` and sets
`currentLine` to `b - 1 = 0`; the guard `currentLine < 1` then breaks the loop.  The run
ends as halted after that single fetch with nothing written to standard output: the
instruction whose source line is 1 is not fetched, although it exists and has code. -/
theorem jump_to_source_line_one_halts :
    parseLines jumpToFirstExample = Except.ok jumpToFirstProgram ∧
      (jumpToFirstProgram[0]?).map (fun line => (line.lineNum, line.hasCode)) =
        some (1, true) ∧
      (jumpToFirstProgram[1]?).map (fun line => stepLine line 1 (initialState 1 1 [])) =
        some (Except.ok 0, initialState 1 1 []) ∧
      loopExit jumpToFirstProgram 0 = true ∧
      execLoop jumpToFirstProgram 10 1 (initialState 1 1 []) 0 =
        { outcome := Outcome.halted, final := initialState 1 1 [], fetched := 1 } := by
  decide

/-! ## Arithmetic on a variable -/

theorem readInput_var (k : Int) (nest : List Char) (lineNum : Int) (s : State) (b : Int)
    (hk0 : 0 ≤ k) (hk : k ≤ s.vars) (hb : s.memVar[k.toNat]? = some b) :
    readInput SideVar k nest lineNum s = (Except.ok b, s) := by
  have h1 : ¬ (k < 0 ∨ k > s.vars) := by omega
  have h2 : ¬ k < 0 := by omega
  simp [readInput, goIndex, h2, hb, hk]

theorem writeOutput_var (k : Int) (nest : List Char) (value lineNum : Int) (s : State)
    (hk0 : 0 ≤ k) (hk : k ≤ s.vars) (hlen : k.toNat < s.memVar.length) :
    writeOutput SideVar k nest value lineNum s =
      (Except.ok (), { s with memVar := s.memVar.set k.toNat value }) := by
  have h1 : ¬ (k < 0 ∨ k > s.vars) := by omega
  have h2 : ¬ k < 0 := by omega
  simp [writeOutput, goStore, h2, hk, hk0, hlen]

/-- C5: for an arithmetic instruction whose right operand is variable `k`, `0 ≤ k < vars`,
on an allocated memory, with `a` the value read (first) from the left operand and `b` the
prior content of `memVar[k]`: the step completes, `currentLine` advances by exactly one,
and `memVar[k]` then holds `a + b` (Add), `b - a` (Subtract), `b * a` (Multiply) or, when
`a ≠ 0`, the quotient of `b` by `a` truncated toward zero (Divide), each reduced to 64-bit
two's complement; no other cell of `memVar` is written. -/
theorem arithmetic_on_variable (workingLine : Line) (currentLine : Int) (s s1 : State)
    (k a b : Int) (halloc : s.Allocated) (hcode : workingLine.hasCode = true)
    (hsign : workingLine.sign = SignAdd ∨ workingLine.sign = SignSubtract ∨
      workingLine.sign = SignMultiply ∨ workingLine.sign = SignDivide)
    (hright : workingLine.right = SideVar) (hparam : workingLine.rightParam = k)
    (hk0 : 0 ≤ k) (hk : k < s.vars)
    (hleft : readInput workingLine.left workingLine.leftParam workingLine.leftNest
      workingLine.lineNum s = (Except.ok a, s1))
    (hb : s.memVar[k.toNat]? = some b)
    (hdiv : workingLine.sign = SignDivide → a ≠ 0) :
    ∃ value : Int,
      stepLine workingLine currentLine s =
          (Except.ok (currentLine + 1), { s1 with memVar := s.memVar.set k.toNat value }) ∧
        (s.memVar.set k.toNat value)[k.toNat]? = some value ∧
        (workingLine.sign = SignAdd → value = wrap64 (a + b)) ∧
        (workingLine.sign = SignSubtract → value = wrap64 (b - a)) ∧
        (workingLine.sign = SignMultiply → value = wrap64 (b * a)) ∧
        (workingLine.sign = SignDivide → value = wrap64 (Int.tdiv b a)) := by
  have hframe := readInput_frame workingLine.left workingLine.leftParam workingLine.leftNest
    workingLine.lineNum s
  rw [hleft] at hframe
  obtain ⟨hm, _, hv, _⟩ := hframe
  simp only at hm hv
  have hklen : k.toNat < s.memVar.length := by
    have := halloc.1
    omega
  have hboth : readBoth workingLine s = (Except.ok (a, b), s1) := by
    unfold readBoth
    rw [hleft]
    simp only
    rw [hright, hparam, readInput_var k _ _ s1 b hk0 (by omega) (by rw [hm]; exact hb)]
  have hwrite : ∀ value, writeOutput workingLine.right workingLine.rightParam
      workingLine.rightNest value workingLine.lineNum s1 =
        (Except.ok (), { s1 with memVar := s.memVar.set k.toNat value }) := by
    intro value
    rw [hright, hparam, writeOutput_var k _ value _ s1 hk0 (by omega) (by rw [hm]; exact hklen),
      hm]
  have hget : ∀ value : Int, (s.memVar.set k.toNat value)[k.toNat]? = some value := by
    intro value
    simp [hklen]
  rcases hsign with h | h | h | h
  · refine ⟨wrap64 (a + b), ?_, hget _, ?_⟩
    · simp [stepLine, hcode, h, hboth, arithValue, hwrite]
    · simp [h]
  · refine ⟨wrap64 (b - a), ?_, hget _, ?_⟩
    · simp [stepLine, hcode, h, hboth, arithValue, hwrite]
    · simp [h]
  · refine ⟨wrap64 (b * a), ?_, hget _, ?_⟩
    · simp [stepLine, hcode, h, hboth, arithValue, hwrite]
    · simp [h]
  · refine ⟨wrap64 (Int.tdiv b a), ?_, hget _, ?_⟩
    · simp [stepLine, hcode, h, hboth, arithValue, hwrite, hdiv h]
    · simp [h]

/-- Witness for `arithmetic_on_variable`: `-3` subtracted from the largest `int64` held by
variable 1 wraps around. -/
theorem arithmetic_on_variable_witness :
    ∃ value : Int,
      stepLine { left := SideNumber, leftParam := -3, sign := SignSubtract, right := SideVar,
                 rightParam := 1, hasCode := true, lineNum := 2, leftNest := [],
                 rightNest := [] } 1
          { vars := 2, cvars := 0, memVar := [0, 9223372036854775807], memCVar := [],
            stdin := [], stdout := [] } =
        (Except.ok (1 + 1),
          { vars := 2, cvars := 0,
            memVar := ([0, 9223372036854775807] : List Int).set (1 : Int).toNat value,
            memCVar := [], stdin := [], stdout := [] }) ∧
      value = -9223372036854775806 := by
  obtain ⟨value, h1, _, _, h2, _, _⟩ :=
    arithmetic_on_variable
      { left := SideNumber, leftParam := -3, sign := SignSubtract, right := SideVar,
        rightParam := 1, hasCode := true, lineNum := 2, leftNest := [], rightNest := [] } 1
      { vars := 2, cvars := 0, memVar := [0, 9223372036854775807], memCVar := [],
        stdin := [], stdout := [] }
      { vars := 2, cvars := 0, memVar := [0, 9223372036854775807], memCVar := [],
        stdin := [], stdout := [] }
      1 (-3) 9223372036854775807 (by decide) rfl (Or.inr (Or.inl rfl)) rfl rfl (by decide)
      (by decide) rfl (by decide) (by intro h; exact absurd h (by decide))
  exact ⟨value, h1, by rw [h2 rfl]; decide⟩


/-! ## Division -/

theorem derefLoop_ne_divideByZero (s : State) (tokens : List Char) :
    ∀ lastNumber : Int, derefLoop s tokens lastNumber ≠ Except.error Fault.divideByZero := by
  induction tokens with
  | nil => intro lastNumber; simp [derefLoop]
  | cons t rest ih =>
    intro lastNumber
    unfold derefLoop
    repeat' split
    all_goals first
      | exact ih _
      | simp

theorem writeOutput_ne_divideByZero (side : SideType) (param : Int) (nest : List Char)
    (value lineNum : Int) (s : State) :
    (writeOutput side param nest value lineNum s).1 ≠ Except.error Fault.divideByZero := by
  have hres : ∀ f, resolveNumberFromNest s nest = Except.error f → f ≠ Fault.divideByZero := by
    intro f hf hfe
    rw [hfe] at hf
    exact derefLoop_ne_divideByZero s _ _ hf
  unfold writeOutput
  cases side <;> simp only <;> (repeat' split) <;> simp
  all_goals
    next f hf => exact hres f hf

/-- C6: for a Divide instruction whose two reads succeed, delivering `a` from the left
operand (the divisor) and `b` from the right one, the step ends in the divide-by-zero
panic if and only if `a = 0`; and when it does, the state at the panic is the one the two
reads left, whose two memory arrays are those from before the step: no result is
written. -/
theorem divide_faults_iff_divisor_zero (workingLine : Line) (currentLine : Int)
    (s s2 : State) (a b : Int) (hcode : workingLine.hasCode = true)
    (hsign : workingLine.sign = SignDivide)
    (hread : readBoth workingLine s = (Except.ok (a, b), s2)) :
    ((stepLine workingLine currentLine s).1 = Except.error Fault.divideByZero ↔ a = 0) ∧
      (a = 0 →
        stepLine workingLine currentLine s = (Except.error Fault.divideByZero, s2) ∧
          s2.memVar = s.memVar ∧ s2.memCVar = s.memCVar) := by
  have hframe := readBoth_frame workingLine s
  rw [hread] at hframe
  have hzero : a = 0 →
      stepLine workingLine currentLine s = (Except.error Fault.divideByZero, s2) := by
    intro ha
    simp [stepLine, hcode, hsign, hread, arithValue, ha]
  refine ⟨⟨?_, fun ha => by rw [hzero ha]⟩, fun ha => ⟨hzero ha, hframe.1, hframe.2.1⟩⟩
  intro hfault
  by_contra ha
  have hw := writeOutput_ne_divideByZero workingLine.right workingLine.rightParam
    workingLine.rightNest (wrap64 (Int.tdiv b a)) workingLine.lineNum s2
  apply hw
  have hstep : stepLine workingLine currentLine s =
      match writeOutput workingLine.right workingLine.rightParam workingLine.rightNest
          (wrap64 (Int.tdiv b a)) workingLine.lineNum s2 with
      | (Except.error f, s3) => (Except.error f, s3)
      | (Except.ok _, s3) => (Except.ok (currentLine + 1), s3) := by
    simp [stepLine, hcode, hsign, hread, arithValue, ha]
  rw [hstep] at hfault
  split at hfault
  · next f s3 heq =>
    have hf : f = Fault.divideByZero := by simpa using hfault
    rw [heq, hf]
  · next u s3 heq => exact absurd hfault (by simp)

/-- Witness for `divide_faults_iff_divisor_zero`: `v0>/v1;` with `memVar = [0, 7]`. -/
theorem divide_faults_iff_divisor_zero_witness :
    stepLine { left := SideVar, leftParam := 0, sign := SignDivide, right := SideVar,
               rightParam := 1, hasCode := true, lineNum := 2, leftNest := [],
               rightNest := [] } 1
        { vars := 2, cvars := 0, memVar := [0, 7], memCVar := [], stdin := [], stdout := [] } =
      (Except.error Fault.divideByZero,
        { vars := 2, cvars := 0, memVar := [0, 7], memCVar := [], stdin := [], stdout := [] }) :=
  ((divide_faults_iff_divisor_zero
    { left := SideVar, leftParam := 0, sign := SignDivide, right := SideVar,
      rightParam := 1, hasCode := true, lineNum := 2, leftNest := [], rightNest := [] } 1
    { vars := 2, cvars := 0, memVar := [0, 7], memCVar := [], stdin := [], stdout := [] }
    { vars := 2, cvars := 0, memVar := [0, 7], memCVar := [], stdin := [], stdout := [] }
    0 7 rfl rfl (by decide)).2 rfl).1

/-- C7 (as stated): the text `5/v0;` has no `>` and parses to a no-op; and the Divide
instruction with left operand the literal 5 and right operand variable 0, run on a memory
whose variable 0 holds 0, does not panic: it completes, stores `0 / 5 = 0` and moves on to
the next line. -/
theorem divide_five_into_zero_completes :
    parseLine 0 "5/v0;".toList = Except.ok { Line.zero with lineNum := 1 } ∧
      stepLine { left := SideNumber, leftParam := 5, sign := SignDivide, right := SideVar,
                 rightParam := 0, hasCode := true, lineNum := 2, leftNest := [],
                 rightNest := [] } 1 (initialState 1 1 []) =
        (Except.ok 2, initialState 1 1 []) := by
  decide

/-- C7 (amended): the line `5>/v0;` parses to the Divide instruction with left operand
the literal 5 and right operand variable 0; on an allocated memory with at least one
variable where `memVar[0] = 0` its step completes without a panic, advances `currentLine`
by one and stores `0` (0 divided by 5) in `memVar[0]`, the divisor being the left operand;
on the same memory the Divide instruction of `0>/v0;`, whose left operand is 0, ends in the
divide-by-zero panic with the state untouched. -/
theorem divide_example (index : Nat) (currentLine : Int) (s : State)
    (halloc : s.Allocated) (hvars : 1 ≤ s.vars) (hzero : s.memVar[0]? = some 0) :
    parseLine index "5>/v0;".toList =
        Except.ok { left := SideNumber, leftParam := 5, sign := SignDivide, right := SideVar,
                    rightParam := 0, hasCode := true, lineNum := (index : Int) + 1,
                    leftNest := [], rightNest := [] } ∧
      stepLine { left := SideNumber, leftParam := 5, sign := SignDivide, right := SideVar,
                 rightParam := 0, hasCode := true, lineNum := (index : Int) + 1,
                 leftNest := [], rightNest := [] } currentLine s =
        (Except.ok (currentLine + 1), { s with memVar := s.memVar.set 0 0 }) ∧
      (s.memVar.set 0 0)[0]? = some 0 ∧
      parseLine index "0>/v0;".toList =
        Except.ok { left := SideNumber, leftParam := 0, sign := SignDivide, right := SideVar,
                    rightParam := 0, hasCode := true, lineNum := (index : Int) + 1,
                    leftNest := [], rightNest := [] } ∧
      stepLine { left := SideNumber, leftParam := 0, sign := SignDivide, right := SideVar,
                 rightParam := 0, hasCode := true, lineNum := (index : Int) + 1,
                 leftNest := [], rightNest := [] } currentLine s =
        (Except.error Fault.divideByZero, s) := by
  obtain ⟨hv, _⟩ := halloc
  have hlen : 0 < s.memVar.length := by omega
  have h1 : ¬ (0 : Int) > s.vars := by omega
  have h2 : (0 : Int) ≤ s.vars := by omega
  have h3 : ¬ s.vars < 0 := by omega
  have hget : goIndex s.memVar 0 = some 0 := by simpa [goIndex] using hzero
  have hw : wrap64 0 = 0 := by decide
  refine ⟨rfl, ?_, by simp [hlen], rfl, ?_⟩
  · simp [stepLine, readBoth, readInput, writeOutput, arithValue, goStore, h2, h3, hlen, hget, hw]
  · simp [stepLine, readBoth, readInput, arithValue, h2, h3, hget]

/-- Witness for `divide_example`: the first line of a script on the zero-initialised
memory of one variable. -/
theorem divide_example_witness :
    (initialState 1 0 []).Allocated ∧ (1 : Int) ≤ (initialState 1 0 []).vars ∧
      (initialState 1 0 []).memVar[0]? = some 0 ∧
      stepLine { left := SideNumber, leftParam := 5, sign := SignDivide, right := SideVar,
                 rightParam := 0, hasCode := true, lineNum := ((0 : Nat) : Int) + 1,
                 leftNest := [], rightNest := [] } 1 (initialState 1 0 []) =
        (Except.ok (1 + 1),
          { initialState 1 0 [] with memVar := (initialState 1 0 []).memVar.set 0 0 }) :=
  ⟨by decide, by decide, by decide,
    (divide_example 0 1 (initialState 1 0 []) (by decide) (by decide) (by decide)).2.1⟩

/-! ## Bounds checks of `readInput` and `writeOutput` -/

/-- C8 (the code at the failing inputs): on the allocated memory of one variable and one
character variable, reading or writing variable 1 or character variable 1 (the index
equal to the length) passes the check `param > vars` and is stopped by the Go runtime's
index-out-of-range panic, not by the unclamped-access panic; the same happens to a nested
operand whose chain (here `5`) resolves to an index outside the array, which is used
unchecked.  From index `vars + 1` on the direct check does fire.  In every case the state
is left as it was. -/
theorem access_at_length_is_runtime_panic :
    readInput SideVar 1 [] 1 (initialState 1 1 []) =
        (Except.error Fault.indexOutOfRange, initialState 1 1 []) ∧
      readInput SideCVar 1 [] 1 (initialState 1 1 []) =
        (Except.error Fault.indexOutOfRange, initialState 1 1 []) ∧
      writeOutput SideVar 1 [] 7 1 (initialState 1 1 []) =
        (Except.error Fault.indexOutOfRange, initialState 1 1 []) ∧
      writeOutput SideCVar 1 [] 7 1 (initialState 1 1 []) =
        (Except.error Fault.indexOutOfRange, initialState 1 1 []) ∧
      readInput SideNestedVar 0 "5".toList 1 (initialState 1 1 []) =
        (Except.error Fault.indexOutOfRange, initialState 1 1 []) ∧
      writeOutput SideNestedCVar 0 "5".toList 7 1 (initialState 1 1 []) =
        (Except.error Fault.indexOutOfRange, initialState 1 1 []) ∧
      readInput SideVar 2 [] 1 (initialState 1 1 []) =
        (Except.error Fault.unclampedAccess, initialState 1 1 []) := by
  decide


/-! ## The nested-address resolver -/

theorem isDigit_not_letter (c : Char) (h : IsDigit c) : ¬ (c = 'c' ∨ c = 'v') := by
  rintro (rfl | rfl) <;> exact absurd h (by decide)

theorem chain_takeWhile (p d : List Char) (hp : ∀ l ∈ p, l = 'v' ∨ l = 'c')
    (hd : ∀ c ∈ d, IsDigit c) :
    (p ++ d).takeWhile (fun t => decide (t = 'c' ∨ t = 'v')) = p ∧
      (p ++ d).dropWhile (fun t => decide (t = 'c' ∨ t = 'v')) = d := by
  induction p with
  | nil =>
    cases d with
    | nil => simp
    | cons c rest =>
      have hc := isDigit_not_letter c (hd c (by simp))
      have hc' : ¬ decide (c = 'c' ∨ c = 'v') = true := by simpa using hc
      simp only [List.nil_append, List.takeWhile_cons, List.dropWhile_cons, hc']
      exact ⟨rfl, rfl⟩
  | cons l rest ih =>
    have hl : l = 'c' ∨ l = 'v' := (hp l (by simp)).symm
    have hl' : decide (l = 'c' ∨ l = 'v') = true := by simpa using hl
    have ih' := ih (fun x hx => hp x (by simp [hx]))
    simp only [List.cons_append, List.takeWhile_cons, List.dropWhile_cons, hl', if_true,
      ih'.1, ih'.2, and_self]

theorem parseNumberFrom_digits (d : List Char) :
    ∀ (i : Nat) (isNegative : Bool) (n : Nat), (∀ c ∈ d, IsDigit c) →
      parseNumberFrom i d (isNegative, wrap64 (n : Int)) =
        (isNegative,
          wrap64 ((d.foldl (fun n c => 10 * n + (c.toNat - 48)) n : Nat) : Int)) := by
  induction d with
  | nil => intro i isNegative n _; simp [parseNumberFrom]
  | cons c rest ih =>
    intro i isNegative n hd
    have hc : IsDigit c := hd c (by simp)
    unfold IsDigit at hc
    have h45 : ¬ (c.toNat = 45 ∧ i = 0) := by omega
    unfold parseNumberFrom
    rw [if_neg h45]
    have hstep : wrap64 (wrap64 (wrap64 (n : Int) * 10) + ((c.toNat : Int) - 48)) =
        wrap64 ((10 * n + (c.toNat - 48) : Nat) : Int) := by
      unfold wrap64
      omega
    rw [hstep, ih (i + 1) isNegative _ (fun x hx => hd x (by simp [hx]))]
    simp

theorem parseNumber_digits (d : List Char) (hd : ∀ c ∈ d, IsDigit c) :
    parseNumber d = wrap64 (decimalValue d : Int) := by
  have h := parseNumberFrom_digits d 0 false 0 hd
  have h0 : wrap64 ((0 : Nat) : Int) = 0 := by decide
  rw [h0] at h
  unfold parseNumber decimalValue
  rw [h]
  simp

theorem derefLoop_append (s : State) (xs ys : List Char) :
    ∀ n : Int, derefLoop s (xs ++ ys) n =
      match derefLoop s xs n with
      | Except.error f => Except.error f
      | Except.ok m => derefLoop s ys m := by
  induction xs with
  | nil => intro n; simp [derefLoop]
  | cons t rest ih =>
    intro n
    simp only [List.cons_append, derefLoop]
    by_cases hc : t = 'c'
    · rw [if_pos hc, if_pos hc]
      by_cases hb : n < 0 ∨ n > s.cvars - 1
      · rw [if_pos hb, if_pos hb]
      · rw [if_neg hb, if_neg hb]
        cases goIndex s.memCVar n with
        | none => rfl
        | some b => exact ih _
    · rw [if_neg hc, if_neg hc]
      by_cases hv : t = 'v'
      · rw [if_pos hv, if_pos hv]
        by_cases hb : n < 0 ∨ n > s.vars - 1
        · rw [if_pos hb, if_pos hb]
        · rw [if_neg hb, if_neg hb]
          cases goIndex s.memVar n with
          | none => rfl
          | some b => exact ih _
      · rw [if_neg hv, if_neg hv]
        exact ih _

theorem derefLoop_single (s : State) (halloc : s.Allocated) (l : Char)
    (hl : l = 'v' ∨ l = 'c') (i : Int) :
    derefLoop s [l] i =
      if l = 'v' then
        if 0 ≤ i ∧ i < (s.memVar.length : Int) then Except.ok (s.memVar.getD i.toNat 0)
        else Except.error Fault.unclampedAccess
      else
        if 0 ≤ i ∧ i < (s.memCVar.length : Int) then
          Except.ok ((s.memCVar.getD i.toNat 0).val : Int)
        else Except.error Fault.unclampedAccess := by
  obtain ⟨hv, hc⟩ := halloc
  have hvc : ('v' : Char) ≠ 'c' := by decide
  rcases hl with rfl | rfl
  · by_cases hin : 0 ≤ i ∧ i < (s.memVar.length : Int)
    · have h1 : ¬ (i < 0 ∨ i > s.vars - 1) := by omega
      have h2 : ¬ i < 0 := by omega
      have h3 : i.toNat < s.memVar.length := by omega
      have h4 : i ≤ s.vars - 1 := by omega
      simp [derefLoop, hvc, h4, hin, goIndex, h2, List.getD, List.getElem?_eq_getElem h3]
    · have h1 : i < 0 ∨ i > s.vars - 1 := by omega
      simp [derefLoop, hvc, h1, hin]
  · have hcv : ('c' : Char) ≠ 'v' := by decide
    by_cases hin : 0 ≤ i ∧ i < (s.memCVar.length : Int)
    · have h1 : ¬ (i < 0 ∨ i > s.cvars - 1) := by omega
      have h2 : ¬ i < 0 := by omega
      have h3 : i.toNat < s.memCVar.length := by omega
      have h4 : i ≤ s.cvars - 1 := by omega
      simp [derefLoop, hcv, h4, hin, goIndex, h2, List.getD, List.getElem?_eq_getElem h3]
    · have h1 : i < 0 ∨ i > s.cvars - 1 := by omega
      simp [derefLoop, hcv, h1, hin]

theorem derefLoop_reverse_eq_resolveSpec (s : State) (halloc : s.Allocated) (p : List Char) :
    ∀ n : Int, (∀ l ∈ p, l = 'v' ∨ l = 'c') →
      derefLoop s p.reverse n = resolveSpec s p n := by
  induction p with
  | nil => intro n _; simp [derefLoop, resolveSpec]
  | cons l rest ih =>
    intro n hp
    have hl := hp l (by simp)
    rw [List.reverse_cons, derefLoop_append, ih n (fun x hx => hp x (by simp [hx]))]
    conv_rhs => rw [resolveSpec]
    cases resolveSpec s rest n with
    | error f => rfl
    | ok i => exact derefLoop_single s halloc l hl i

theorem resolveSpec_memory (s t : State) (hv : t.memVar = s.memVar)
    (hc : t.memCVar = s.memCVar) (p : List Char) (n : Int) :
    resolveSpec t p n = resolveSpec s p n := by
  induction p with
  | nil => rfl
  | cons l rest ih =>
    simp only [resolveSpec, ih, hv, hc]

/-- C9 (as stated): with the base of the chain taken as the number the digits denote, the
code and the reference resolver differ on a digit run of 2^64: `parseNumber` wraps it to
0, so `v18446744073709551616` reads `memVar[0]` where the reference faults. -/
theorem resolve_long_digit_run_wraps :
    resolveNumberFromNest
        { vars := 1, cvars := 0, memVar := [42], memCVar := [], stdin := [], stdout := [] }
        "v18446744073709551616".toList = Except.ok 42 ∧
      resolveSpec
        { vars := 1, cvars := 0, memVar := [42], memCVar := [], stdin := [], stdout := [] }
        "v".toList (decimalValue "18446744073709551616".toList) =
          Except.error Fault.unclampedAccess := by
  decide

/-- C9 (amended): on an allocated memory, for every chain `p ++ d` with `p` a possibly
empty string of `v`/`c` letters and `d` a non-empty string of decimal digits,
`resolveNumberFromNest` equals the recursive reference resolver applied to the letters
`p` above the base value of `d` reduced to 64-bit two's complement, which is the number
`d` denotes whenever that number is below 2^63; and the result depends only on the chain
and the contents of the two memory arrays. -/
theorem resolveNumberFromNest_refines_resolveSpec (s : State) (p d : List Char)
    (halloc : s.Allocated) (hp : ∀ l ∈ p, l = 'v' ∨ l = 'c') (hne : d ≠ [])
    (hd : ∀ c ∈ d, IsDigit c) :
    resolveNumberFromNest s (p ++ d) = resolveSpec s p (wrap64 (decimalValue d : Int)) ∧
      ((decimalValue d : Int) < 9223372036854775808 →
        resolveNumberFromNest s (p ++ d) = resolveSpec s p (decimalValue d : Int)) ∧
      ∀ t : State, t.Allocated → t.memVar = s.memVar → t.memCVar = s.memCVar →
        resolveNumberFromNest t (p ++ d) = resolveNumberFromNest s (p ++ d) := by
  have main : ∀ u : State, u.Allocated →
      resolveNumberFromNest u (p ++ d) = resolveSpec u p (wrap64 (decimalValue d : Int)) := by
    intro u hu
    obtain ⟨htake, hdrop⟩ := chain_takeWhile p d hp hd
    unfold resolveNumberFromNest
    simp only [htake, hdrop, hne, if_false]
    rw [parseNumber_digits d hd]
    exact derefLoop_reverse_eq_resolveSpec u hu p _ hp
  refine ⟨main s halloc, ?_, ?_⟩
  · intro hlt
    rw [main s halloc]
    have hw : wrap64 (decimalValue d : Int) = (decimalValue d : Int) := by
      unfold wrap64
      omega
    rw [hw]
  · intro t ht hv hc
    rw [main t ht, main s halloc]
    exact resolveSpec_memory s t hv hc p _

/-- Witness for `resolveNumberFromNest_refines_resolveSpec`: Example 3 of the
specification, chain `vc5` with `memCVar[5] = 7` and `memVar[7] = 42`. -/
theorem resolveNumberFromNest_refines_resolveSpec_witness :
    resolveNumberFromNest
        { vars := 8, cvars := 6, memVar := [0, 0, 0, 0, 0, 0, 0, 42],
          memCVar := [0, 0, 0, 0, 0, 7], stdin := [], stdout := [] }
        ("vc".toList ++ "5".toList) =
      resolveSpec
        { vars := 8, cvars := 6, memVar := [0, 0, 0, 0, 0, 0, 0, 42],
          memCVar := [0, 0, 0, 0, 0, 7], stdin := [], stdout := [] }
        "vc".toList (wrap64 (decimalValue "5".toList : Int)) ∧
      resolveSpec
        { vars := 8, cvars := 6, memVar := [0, 0, 0, 0, 0, 0, 0, 42],
          memCVar := [0, 0, 0, 0, 0, 7], stdin := [], stdout := [] }
        "vc".toList (wrap64 (decimalValue "5".toList : Int)) = Except.ok 42 :=
  ⟨(resolveNumberFromNest_refines_resolveSpec
      { vars := 8, cvars := 6, memVar := [0, 0, 0, 0, 0, 0, 0, 42],
        memCVar := [0, 0, 0, 0, 0, 7], stdin := [], stdout := [] }
      "vc".toList "5".toList (by decide) (by decide) (by decide) (by decide)).1,
    by decide⟩


/-! ## Move leaves its source cell alone -/

theorem toByte_val (b : Byte) : toByte (b.val : Int) = b := by
  apply Fin.ext
  have := b.isLt
  simp only [toByte]
  omega

theorem goIndex_set_same_value {α : Type} (mem : List α) (i j : Int) (a : α)
    (hj : goIndex mem j = some a) : goIndex (mem.set i.toNat a) j = some a := by
  unfold goIndex at hj ⊢
  by_cases hneg : j < 0
  · simp [hneg] at hj
  · simp only [hneg, if_false] at hj ⊢
    rw [List.getElem?_set]
    by_cases heq : i.toNat = j.toNat
    · have hlt : j.toNat < mem.length := by
        by_contra hge
        rw [List.getElem?_eq_none (by omega)] at hj
        exact absurd hj (by simp)
      simp [heq, hlt]
    · simp [heq, hj]

theorem goStore_eq_some {α : Type} (mem mem1 : List α) (i : Int) (v : α)
    (h : goStore mem i v = some mem1) : mem1 = mem.set i.toNat v := by
  unfold goStore at h
  split at h
  · injection h with h; exact h.symm
  · exact absurd h (by simp)

theorem cell_after_var_write (s : State) (i a : Int) (c : Cell) (hc : s.cell c = some a) :
    State.cell { s with memVar := s.memVar.set i.toNat a } c = some a := by
  cases c with
  | var j => exact goIndex_set_same_value s.memVar i j a hc
  | cvar j => exact hc

theorem cell_after_cvar_write (s : State) (i a : Int) (c : Cell) (hc : s.cell c = some a) :
    State.cell { s with memCVar := s.memCVar.set i.toNat (toByte a) } c = some a := by
  cases c with
  | var j => exact hc
  | cvar j =>
    simp only [State.cell] at hc ⊢
    cases hb : goIndex s.memCVar j with
    | none => rw [hb] at hc; exact absurd hc (by simp)
    | some b =>
      rw [hb] at hc
      have hab : (b.val : Int) = a := by simpa using hc
      rw [← hab, toByte_val, goIndex_set_same_value s.memCVar i j b hb]
      rfl

theorem writeOutput_keeps_cell_of_value (side : SideType) (param : Int) (nest : List Char)
    (a lineNum : Int) (s s2 : State) (u : Unit)
    (hw : writeOutput side param nest a lineNum s = (Except.ok u, s2)) (c : Cell)
    (hc : s.cell c = some a) : s2.cell c = some a := by
  unfold writeOutput at hw
  cases side <;> simp only at hw
  case SideSTDOutput => injection hw with _ h2; subst h2; cases c <;> exact hc
  case SideOutputRaw => injection hw with _ h2; subst h2; cases c <;> exact hc
  case SideVar =>
    split at hw
    · exact absurd hw (by simp)
    · split at hw
      · exact absurd hw (by simp)
      · next mem hmem =>
        injection hw with _ h2
        subst h2
        rw [goStore_eq_some _ _ _ _ hmem]
        exact cell_after_var_write s param a c hc
  case SideCVar =>
    split at hw
    · exact absurd hw (by simp)
    · split at hw
      · exact absurd hw (by simp)
      · next mem hmem =>
        injection hw with _ h2
        subst h2
        rw [goStore_eq_some _ _ _ _ hmem]
        exact cell_after_cvar_write s param a c hc
  case SideNestedVar =>
    split at hw
    · exact absurd hw (by simp)
    · next index _ =>
      split at hw
      · exact absurd hw (by simp)
      · next mem hmem =>
        injection hw with _ h2
        subst h2
        rw [goStore_eq_some _ _ _ _ hmem]
        exact cell_after_var_write s index a c hc
  case SideNestedCVar =>
    split at hw
    · exact absurd hw (by simp)
    · next index _ =>
      split at hw
      · exact absurd hw (by simp)
      · next mem hmem =>
        injection hw with _ h2
        subst h2
        rw [goStore_eq_some _ _ _ _ hmem]
        exact cell_after_cvar_write s index a c hc
  all_goals
    injection hw with _ h2
    subst h2
    exact hc

theorem readInput_memory_cell (side : SideType) (param : Int) (nest : List Char)
    (lineNum a : Int) (s s1 : State)
    (hside : side = SideVar ∨ side = SideCVar ∨ side = SideNestedVar ∨ side = SideNestedCVar)
    (hr : readInput side param nest lineNum s = (Except.ok a, s1)) :
    s1 = s ∧ ∃ c, cellOf side param nest s = some c ∧ s.cell c = some a := by
  unfold readInput at hr
  rcases hside with rfl | rfl | rfl | rfl <;> simp only at hr
  · split at hr
    · exact absurd hr (by simp)
    · split at hr
      · exact absurd hr (by simp)
      · next v hv =>
        injection hr with h1 h2
        injection h1 with h1
        subst h1 h2
        exact ⟨rfl, Cell.var param, rfl, hv⟩
  · split at hr
    · exact absurd hr (by simp)
    · split at hr
      · exact absurd hr (by simp)
      · next b hb =>
        injection hr with h1 h2
        injection h1 with h1
        subst h1 h2
        exact ⟨rfl, Cell.cvar param, rfl, by simp [State.cell, hb]⟩
  · split at hr
    · exact absurd hr (by simp)
    · next index hres =>
      split at hr
      · exact absurd hr (by simp)
      · next v hv =>
        injection hr with h1 h2
        injection h1 with h1
        subst h1 h2
        exact ⟨rfl, Cell.var index, by simp [cellOf, hres], hv⟩
  · split at hr
    · exact absurd hr (by simp)
    · next index hres =>
      split at hr
      · exact absurd hr (by simp)
      · next b hb =>
        injection hr with h1 h2
        injection h1 with h1
        subst h1 h2
        exact ⟨rfl, Cell.cvar index, by simp [cellOf, hres], by simp [State.cell, hb]⟩

/-- C10: for every Move instruction whose left operand is a variable, a character
variable or a nested one, and every state in which the step completes without a panic,
the left operand addresses a cell of memory before the step, and that cell holds the same
value after the step as before it, whatever the right operand is, the very same cell
included. -/
theorem move_keeps_left_cell (workingLine : Line) (currentLine next : Int) (s s2 : State)
    (hcode : workingLine.hasCode = true) (hsign : workingLine.sign = SignWrite)
    (hleft : workingLine.left = SideVar ∨ workingLine.left = SideCVar ∨
      workingLine.left = SideNestedVar ∨ workingLine.left = SideNestedCVar)
    (hstep : stepLine workingLine currentLine s = (Except.ok next, s2)) :
    ∃ c a, cellOf workingLine.left workingLine.leftParam workingLine.leftNest s = some c ∧
      s.cell c = some a ∧ s2.cell c = some a := by
  unfold stepLine at hstep
  simp only [hcode, if_true, hsign] at hstep
  split at hstep
  · exact absurd hstep (by simp)
  · next a s1 hread =>
    obtain ⟨hs1, c, hcell, hval⟩ :=
      readInput_memory_cell _ _ _ _ a s s1 hleft hread
    subst hs1
    split at hstep
    · exact absurd hstep (by simp)
    · next u s3 hwrite =>
      injection hstep with _ h2
      subst h2
      exact ⟨c, a, hcell, hval, writeOutput_keeps_cell_of_value _ _ _ a _ _ _ u hwrite c hval⟩

/-- Witness for `move_keeps_left_cell`: `v0>>v0;`, whose right operand is the cell its
left operand reads, with `memVar[0] = 5`. -/
theorem move_keeps_left_cell_witness :
    ∃ c a,
      cellOf SideVar 0 []
          { vars := 1, cvars := 0, memVar := [5], memCVar := [], stdin := [], stdout := [] } =
        some c ∧
      State.cell
          { vars := 1, cvars := 0, memVar := [5], memCVar := [], stdin := [], stdout := [] }
          c = some a ∧
      State.cell
          { vars := 1, cvars := 0, memVar := [5], memCVar := [], stdin := [], stdout := [] }
          c = some a :=
  move_keeps_left_cell
    { left := SideVar, leftParam := 0, sign := SignWrite, right := SideVar, rightParam := 0,
      hasCode := true, lineNum := 2, leftNest := [], rightNest := [] } 1 2
    { vars := 1, cvars := 0, memVar := [5], memCVar := [], stdin := [], stdout := [] }
    { vars := 1, cvars := 0, memVar := [5], memCVar := [], stdin := [], stdout := [] }
    rfl rfl (Or.inl rfl) (by decide)


/-! ## Operand roles -/

theorem parseLine_roles (index : Nat) (element : List Char) (line : Line)
    (hline : parseLine index element = Except.ok line) (hcode : line.hasCode = true) :
    isInput line.left = true ∧ rightRoleOk line.sign line.right = true := by
  unfold parseLine at hline
  by_cases h : (scanChars element Scan.init).hasCode = true
  · simp only [h, if_true] at hline
    split at hline
    · exact absurd hline (by simp)
    · split at hline
      · exact absurd hline (by simp)
      · split at hline
        · exact absurd hline (by simp)
        · next hl =>
          split at hline
          · exact absurd hline (by simp)
          · split at hline
            · exact absurd hline (by simp)
            · next hr =>
              injection hline with hline
              subst hline
              simp only
              exact ⟨by simpa using hl, by simpa using hr⟩
  · simp only [h, if_false] at hline
    injection hline with hline
    subst hline
    exact absurd hcode (by simp [Line.zero])

theorem arithmetic_right_kind (sign : Sign) (rside : SideType)
    (hsign : sign = SignAdd ∨ sign = SignSubtract ∨ sign = SignMultiply ∨ sign = SignDivide)
    (h : rightRoleOk sign rside = true) :
    rside = SideVar ∨ rside = SideCVar ∨ rside = SideNestedVar ∨ rside = SideNestedCVar := by
  rcases hsign with rfl | rfl | rfl | rfl <;> cases rside <;> simp_all [rightRoleOk, isInput, isOutput]

/-! ## Arithmetic changes the right cell only -/

theorem derefLoop_congr (s t : State) (hv : t.memVar = s.memVar) (hc : t.memCVar = s.memCVar)
    (hvars : t.vars = s.vars) (hcvars : t.cvars = s.cvars) (tokens : List Char) :
    ∀ n : Int, derefLoop t tokens n = derefLoop s tokens n := by
  induction tokens with
  | nil => intro n; rfl
  | cons x rest ih =>
    intro n
    simp only [derefLoop, hv, hc, hvars, hcvars, ih]

theorem resolveNumberFromNest_congr (s t : State) (hv : t.memVar = s.memVar)
    (hc : t.memCVar = s.memCVar) (hvars : t.vars = s.vars) (hcvars : t.cvars = s.cvars)
    (nest : List Char) : resolveNumberFromNest t nest = resolveNumberFromNest s nest := by
  unfold resolveNumberFromNest
  exact derefLoop_congr s t hv hc hvars hcvars _ _

theorem cellOf_congr (s t : State) (hv : t.memVar = s.memVar) (hc : t.memCVar = s.memCVar)
    (hvars : t.vars = s.vars) (hcvars : t.cvars = s.cvars) (side : SideType) (param : Int)
    (nest : List Char) : cellOf side param nest t = cellOf side param nest s := by
  unfold cellOf
  rw [resolveNumberFromNest_congr s t hv hc hvars hcvars]

theorem cell_congr (s t : State) (hv : t.memVar = s.memVar) (hc : t.memCVar = s.memCVar)
    (c : Cell) : t.cell c = s.cell c := by
  cases c <;> simp [State.cell, hv, hc]

theorem goIndex_set_other {α : Type} (mem : List α) (i j : Int) (v : α) (hi : 0 ≤ i)
    (hij : j ≠ i) : goIndex (mem.set i.toNat v) j = goIndex mem j := by
  unfold goIndex
  by_cases hneg : j < 0
  · simp [hneg]
  · simp only [hneg, if_false]
    have hne : i.toNat ≠ j.toNat := by omega
    rw [List.getElem?_set_ne hne]

theorem goStore_nonneg {α : Type} (mem mem1 : List α) (i : Int) (v : α)
    (h : goStore mem i v = some mem1) : 0 ≤ i := by
  unfold goStore at h
  split at h
  · next hc => exact hc.1
  · exact absurd h (by simp)

theorem writeOutput_frame (side : SideType) (param : Int) (nest : List Char)
    (value lineNum : Int) (s s2 : State) (u : Unit)
    (hw : writeOutput side param nest value lineNum s = (Except.ok u, s2)) (c : Cell)
    (hc : cellOf side param nest s ≠ some c) : s2.cell c = s.cell c := by
  unfold writeOutput at hw
  cases side <;> simp only at hw
  case SideSTDOutput => injection hw with _ h2; subst h2; cases c <;> rfl
  case SideOutputRaw => injection hw with _ h2; subst h2; cases c <;> rfl
  case SideVar =>
    split at hw
    · exact absurd hw (by simp)
    · split at hw
      · exact absurd hw (by simp)
      · next mem hmem =>
        injection hw with _ h2
        subst h2
        rw [goStore_eq_some _ _ _ _ hmem]
        cases c with
        | cvar j => rfl
        | var j =>
          have hj : j ≠ param := by
            intro h; apply hc; simp [cellOf, h]
          exact goIndex_set_other _ _ _ _ (goStore_nonneg _ _ _ _ hmem) hj
  case SideCVar =>
    split at hw
    · exact absurd hw (by simp)
    · split at hw
      · exact absurd hw (by simp)
      · next mem hmem =>
        injection hw with _ h2
        subst h2
        rw [goStore_eq_some _ _ _ _ hmem]
        cases c with
        | var j => rfl
        | cvar j =>
          have hj : j ≠ param := by
            intro h; apply hc; simp [cellOf, h]
          simp only [State.cell]
          rw [goIndex_set_other _ _ _ _ (goStore_nonneg _ _ _ _ hmem) hj]
  case SideNestedVar =>
    split at hw
    · exact absurd hw (by simp)
    · next index hres =>
      split at hw
      · exact absurd hw (by simp)
      · next mem hmem =>
        injection hw with _ h2
        subst h2
        rw [goStore_eq_some _ _ _ _ hmem]
        cases c with
        | cvar j => rfl
        | var j =>
          have hj : j ≠ index := by
            intro h; apply hc; simp [cellOf, hres, h]
          exact goIndex_set_other _ _ _ _ (goStore_nonneg _ _ _ _ hmem) hj
  case SideNestedCVar =>
    split at hw
    · exact absurd hw (by simp)
    · next index hres =>
      split at hw
      · exact absurd hw (by simp)
      · next mem hmem =>
        injection hw with _ h2
        subst h2
        rw [goStore_eq_some _ _ _ _ hmem]
        cases c with
        | var j => rfl
        | cvar j =>
          have hj : j ≠ index := by
            intro h; apply hc; simp [cellOf, hres, h]
          simp only [State.cell]
          rw [goIndex_set_other _ _ _ _ (goStore_nonneg _ _ _ _ hmem) hj]
  all_goals
    injection hw with _ h2
    subst h2
    rfl

theorem writeOutput_ok_cell (side : SideType) (param : Int) (nest : List Char)
    (value lineNum : Int) (s s2 : State) (u : Unit)
    (hside : side = SideVar ∨ side = SideCVar ∨ side = SideNestedVar ∨ side = SideNestedCVar)
    (hw : writeOutput side param nest value lineNum s = (Except.ok u, s2)) :
    ∃ c, cellOf side param nest s = some c := by
  unfold writeOutput at hw
  rcases hside with rfl | rfl | rfl | rfl <;> simp only at hw
  · exact ⟨Cell.var param, rfl⟩
  · exact ⟨Cell.cvar param, rfl⟩
  · split at hw
    · exact absurd hw (by simp)
    · next index hres => exact ⟨Cell.var index, by simp [cellOf, hres]⟩
  · split at hw
    · exact absurd hw (by simp)
    · next index hres => exact ⟨Cell.cvar index, by simp [cellOf, hres]⟩

/-- C11 (as stated): the parser accepts `v0>+v0;`, whose left and right operand are the
same cell; on `memVar = [3]` its step completes and the cell the left operand resolved to
holds 6 afterwards, not 3. -/
theorem add_to_itself_changes_left_cell :
    parseLine 0 "v0>+v0;".toList =
        Except.ok { left := SideVar, leftParam := 0, sign := SignAdd, right := SideVar,
                    rightParam := 0, hasCode := true, lineNum := 1, leftNest := [],
                    rightNest := [] } ∧
      stepLine { left := SideVar, leftParam := 0, sign := SignAdd, right := SideVar,
                 rightParam := 0, hasCode := true, lineNum := 1, leftNest := [],
                 rightNest := [] } 1
          { vars := 1, cvars := 0, memVar := [3], memCVar := [], stdin := [], stdout := [] } =
        (Except.ok 2,
          { vars := 1, cvars := 0, memVar := [6], memCVar := [], stdin := [], stdout := [] }) ∧
      cellOf SideVar 0 []
          { vars := 1, cvars := 0, memVar := [3], memCVar := [], stdin := [], stdout := [] } =
        some (Cell.var 0) ∧
      State.cell
          { vars := 1, cvars := 0, memVar := [3], memCVar := [], stdin := [], stdout := [] }
          (Cell.var 0) = some 3 ∧
      State.cell
          { vars := 1, cvars := 0, memVar := [6], memCVar := [], stdin := [], stdout := [] }
          (Cell.var 0) = some 6 := by
  decide

/-- C11 (amended): for every Add, Subtract, Multiply or Divide instruction the parser
produces and every state in which its step completes without a panic, the right operand
names a cell of memory, every other cell of both arrays holds after the step what it held
before, and so does in particular the cell the left operand resolved to unless it is the
very cell the right operand names. -/
theorem arithmetic_changes_only_right_cell (index : Nat) (element : List Char)
    (workingLine : Line) (currentLine next : Int) (s s3 : State)
    (hparse : parseLine index element = Except.ok workingLine)
    (hcode : workingLine.hasCode = true)
    (hsign : workingLine.sign = SignAdd ∨ workingLine.sign = SignSubtract ∨
      workingLine.sign = SignMultiply ∨ workingLine.sign = SignDivide)
    (hstep : stepLine workingLine currentLine s = (Except.ok next, s3)) :
    ∃ cr, cellOf workingLine.right workingLine.rightParam workingLine.rightNest s = some cr ∧
      (∀ c, c ≠ cr → s3.cell c = s.cell c) ∧
      ∀ cl, cellOf workingLine.left workingLine.leftParam workingLine.leftNest s = some cl →
        cl ≠ cr → s3.cell cl = s.cell cl := by
  have hkind := arithmetic_right_kind _ _ hsign (parseLine_roles index element _ hparse hcode).2
  have hframe := readBoth_frame workingLine s
  have hstep2 : ∃ a b s2 value u, readBoth workingLine s = (Except.ok (a, b), s2) ∧
      writeOutput workingLine.right workingLine.rightParam workingLine.rightNest value
        workingLine.lineNum s2 = (Except.ok u, s3) := by
    unfold stepLine at hstep
    simp only [hcode, if_true] at hstep
    rcases hsign with h | h | h | h <;> simp only [h] at hstep <;>
    · split at hstep
      · exact absurd hstep (by simp)
      · next a b s2 hread =>
        split at hstep
        · exact absurd hstep (by simp)
        · next value _ =>
          split at hstep
          · exact absurd hstep (by simp)
          · next u s4 hwrite =>
            injection hstep with _ h2
            subst h2
            exact ⟨a, b, s2, value, u, hread, hwrite⟩
  obtain ⟨a, b, s2, value, u, hread, hwrite⟩ := hstep2
  rw [hread] at hframe
  obtain ⟨hv, hc, hvars, hcvars⟩ := hframe
  simp only at hv hc hvars hcvars
  obtain ⟨cr, hcr⟩ := writeOutput_ok_cell _ _ _ _ _ _ _ u hkind hwrite
  have hcr' : cellOf workingLine.right workingLine.rightParam workingLine.rightNest s =
      some cr := by
    rw [← cellOf_congr s s2 hv hc hvars hcvars]; exact hcr
  have hother : ∀ c, c ≠ cr → s3.cell c = s.cell c := by
    intro c hne
    rw [writeOutput_frame _ _ _ _ _ _ _ u hwrite c (by rw [hcr]; intro h; injection h with h; exact hne h.symm)]
    exact cell_congr s s2 hv hc c
  exact ⟨cr, hcr', hother, fun cl _ hne => hother cl hne⟩

/-- Witness for `arithmetic_changes_only_right_cell`: `v0>+v1;` on `memVar = [3, 4]`. -/
theorem arithmetic_changes_only_right_cell_witness :
    ∃ cr,
      cellOf SideVar 1 []
          { vars := 2, cvars := 0, memVar := [3, 4], memCVar := [], stdin := [],
            stdout := [] } = some cr ∧
      (∀ c, c ≠ cr →
        State.cell
            { vars := 2, cvars := 0, memVar := [3, 7], memCVar := [], stdin := [],
              stdout := [] } c =
          State.cell
            { vars := 2, cvars := 0, memVar := [3, 4], memCVar := [], stdin := [],
              stdout := [] } c) ∧
      ∀ cl,
        cellOf SideVar 0 []
            { vars := 2, cvars := 0, memVar := [3, 4], memCVar := [], stdin := [],
              stdout := [] } = some cl →
        cl ≠ cr →
        State.cell
            { vars := 2, cvars := 0, memVar := [3, 7], memCVar := [], stdin := [],
              stdout := [] } cl =
          State.cell
            { vars := 2, cvars := 0, memVar := [3, 4], memCVar := [], stdin := [],
              stdout := [] } cl :=
  arithmetic_changes_only_right_cell 0 "v0>+v1;".toList
    { left := SideVar, leftParam := 0, sign := SignAdd, right := SideVar, rightParam := 1,
      hasCode := true, lineNum := 1, leftNest := [], rightNest := [] } 1 2
    { vars := 2, cvars := 0, memVar := [3, 4], memCVar := [], stdin := [], stdout := [] }
    { vars := 2, cvars := 0, memVar := [3, 7], memCVar := [], stdin := [], stdout := [] }
    (by decide) rfl (Or.inl rfl) (by decide)

/-! ## The operand-role table -/

theorem sourceCapable_eq_isInput (kind : SideType) : sourceCapable kind = isInput kind := by
  cases kind <;> rfl

theorem sinkCapable_eq_isOutput (kind : SideType) : sinkCapable kind = isOutput kind := by
  cases kind <;> rfl

theorem roleTable_eq (sign : Sign) (lkind rkind : SideType) :
    roleTable sign lkind rkind = (isInput lkind && rightRoleOk sign rkind) := by
  unfold roleTable rightRoleOk
  rw [sourceCapable_eq_isInput, sourceCapable_eq_isInput, sinkCapable_eq_isOutput]
  cases sign <;> simp [Bool.and_comm]

/-- C12: every instruction the parser produces from an executable line satisfies the
operand-role table (left kind source-capable; right kind sink-capable for Move,
source-capable for JumpIfPositive, both for Add, Subtract, Multiply and Divide, which
leaves exactly Variable, CharVariable, NestedVariable and NestedCharVariable); and every
executable line whose operator and two operands are recognised but violate the table is
rejected with the operand-role panic. -/
theorem parser_enforces_role_table (index : Nat) (element : List Char) :
    (∀ line, parseLine index element = Except.ok line → line.hasCode = true →
        roleTable line.sign line.left line.right = true ∧
          line.left ≠ SideSTDOutput ∧ line.left ≠ SideOutputRaw ∧
          ((line.sign = SignAdd ∨ line.sign = SignSubtract ∨ line.sign = SignMultiply ∨
              line.sign = SignDivide) →
            line.right = SideVar ∨ line.right = SideCVar ∨ line.right = SideNestedVar ∨
              line.right = SideNestedCVar)) ∧
      ∀ sign lside lmeta lnested rside rmeta rnested,
        (scanChars element Scan.init).hasCode = true →
        signOfCommand (scanChars element Scan.init).command = Except.ok sign →
        parseSide (scanChars element Scan.init).leftSide (index : Int) 0 =
          Except.ok (lside, lmeta, lnested) →
        parseSide (scanChars element Scan.init).rightSide (index : Int) 0 =
          Except.ok (rside, rmeta, rnested) →
        roleTable sign lside rside = false →
        parseLine index element = Except.error Fault.operandRoleViolation := by
  constructor
  · intro line hline hcode
    obtain ⟨hl, hr⟩ := parseLine_roles index element line hline hcode
    refine ⟨by rw [roleTable_eq, hl, hr]; rfl, ?_, ?_, ?_⟩
    · intro h; rw [h] at hl; exact absurd hl (by decide)
    · intro h; rw [h] at hl; exact absurd hl (by decide)
    · intro hsign; exact arithmetic_right_kind _ _ hsign hr
  · intro sign lside lmeta lnested rside rmeta rnested hcode hsign hleft hright htable
    rw [roleTable_eq] at htable
    unfold parseLine
    simp only [hcode, if_true, hsign, hleft, hright]
    by_cases hl : isInput lside = false
    · simp [hl]
    · have hl' : isInput lside = true := by simpa using hl
      rw [hl'] at htable
      have hr : rightRoleOk sign rside = false := by simpa using htable
      simp [hl', hr]

/-- Witness for `parser_enforces_role_table`: `7>+v1;` is accepted and obeys the table,
`7>+o;` (an output-only right operand for Add) is rejected. -/
theorem parser_enforces_role_table_witness :
    roleTable SignAdd SideNumber SideVar = true ∧
      parseLine 0 "7>+o;".toList = Except.error Fault.operandRoleViolation :=
  ⟨((parser_enforces_role_table 0 "7>+v1;".toList).1
      { left := SideNumber, leftParam := 7, sign := SignAdd, right := SideVar,
        rightParam := 1, hasCode := true, lineNum := 1, leftNest := [], rightNest := [] }
      (by decide) rfl).1,
    (parser_enforces_role_table 0 "7>+o;".toList).2 SignAdd SideNumber 7 false
      SideSTDOutput 0 false (by decide) (by decide) (by decide) (by decide) (by decide)⟩


/-! ## Classification of variable operands -/

theorem char_eq_minus_of_toNat (x : Char) (h : x.toNat = 45) : x = '-' := by
  have h1 : Char.ofNat x.toNat = x := Char.ofNat_toNat x
  rw [h] at h1
  exact h1.symm

theorem letter_toNat (l : Char) (hl : l = 'v' ∨ l = 'c') :
    ¬ ((l.toNat ≥ 48 ∧ l.toNat ≤ 57) ∨ (l.toNat = 45 ∧ (0 : Nat) = 0)) := by
  rcases hl with rfl | rfl <;> decide

theorem isNumberFrom_digits (t : List Char) (ht : ∀ x ∈ t, IsDigit x) :
    ∀ i : Nat, isNumberFrom i t = true := by
  induction t with
  | nil => intro i; rfl
  | cons x rest ih =>
    intro i
    have hx : IsDigit x := ht x (by simp)
    unfold IsDigit at hx
    unfold isNumberFrom
    rw [if_pos (Or.inl ⟨hx.1, hx.2⟩)]
    exact ih (fun y hy => ht y (by simp [hy])) _

theorem isNumberFrom_chars (t : List Char) :
    ∀ i : Nat, isNumberFrom i t = true → ∀ x ∈ t, IsDigit x ∨ x = '-' := by
  induction t with
  | nil => intro i _ x hx; simp at hx
  | cons y rest ih =>
    intro i h x hx
    unfold isNumberFrom at h
    split at h
    · next hc =>
      rcases List.mem_cons.mp hx with rfl | hmem
      · rcases hc with hd | hm
        · exact Or.inl ⟨hd.1, hd.2⟩
        · exact Or.inr (char_eq_minus_of_toNat _ hm.1)
      · exact ih _ h x hmem
    · exact absurd h (by simp)

theorem isNumber_single (x : Char) : isNumber [x] = true ↔ IsDigit x ∨ x = '-' := by
  constructor
  · intro h; exact isNumberFrom_chars [x] 0 h x (by simp)
  · intro h
    unfold isNumber isNumberFrom
    rcases h with hd | rfl
    · unfold IsDigit at hd
      rw [if_pos (Or.inl ⟨hd.1, hd.2⟩)]
      rfl
    · rfl

theorem checkNestedValidityFrom_digits (d : List Char) (hd : ∀ x ∈ d, IsDigit x) :
    ∀ r : Bool, checkNestedValidityFrom d r = true := by
  induction d with
  | nil => intro r; rfl
  | cons x rest ih =>
    intro r
    have hx : IsDigit x := hd x (by simp)
    have hnl : ¬ ((x = 'v' ∨ x = 'c') ∧ r = false) := by
      rintro ⟨h, _⟩
      exact isDigit_not_letter x hx h.symm
    unfold checkNestedValidityFrom
    rw [if_neg hnl, if_pos ((isNumber_single x).mpr (Or.inl hx))]
    exact ih (fun y hy => hd y (by simp [hy])) _

theorem checkNestedValidityFrom_chain (p d : List Char) (hp : ∀ l ∈ p, l = 'v' ∨ l = 'c')
    (hd : ∀ x ∈ d, IsDigit x) : checkNestedValidityFrom (p ++ d) false = true := by
  induction p with
  | nil => exact checkNestedValidityFrom_digits d hd false
  | cons l rest ih =>
    have hl := hp l (by simp)
    simp only [List.cons_append]
    unfold checkNestedValidityFrom
    rw [if_pos ⟨hl, rfl⟩]
    exact ih (fun y hy => hp y (by simp [hy]))

theorem checkNestedValidityFrom_chars (t : List Char) :
    ∀ r : Bool, checkNestedValidityFrom t r = true →
      ∀ x ∈ t, x = 'v' ∨ x = 'c' ∨ IsDigit x ∨ x = '-' := by
  induction t with
  | nil => intro r _ x hx; simp at hx
  | cons y rest ih =>
    intro r h x hx
    unfold checkNestedValidityFrom at h
    split at h
    · next hc =>
      rcases List.mem_cons.mp hx with rfl | hmem
      · rcases hc.1 with hv | hcc
        · exact Or.inl hv
        · exact Or.inr (Or.inl hcc)
      · exact ih _ h x hmem
    · split at h
      · next hn =>
        rcases List.mem_cons.mp hx with rfl | hmem
        · exact Or.inr (Or.inr ((isNumber_single _).mp hn))
        · exact ih _ h x hmem
      · exact absurd h (by simp)

theorem checkNestedValidityFrom_reached (t : List Char) :
    checkNestedValidityFrom t true = true → ∀ x ∈ t, IsDigit x ∨ x = '-' := by
  induction t with
  | nil => intro _ x hx; simp at hx
  | cons y rest ih =>
    intro h x hx
    unfold checkNestedValidityFrom at h
    have hnl : ¬ ((y = 'v' ∨ y = 'c') ∧ true = false) := by simp
    rw [if_neg hnl] at h
    split at h
    · next hn =>
      rcases List.mem_cons.mp hx with rfl | hmem
      · exact (isNumber_single _).mp hn
      · exact ih h x hmem
    · exact absurd h (by simp)

theorem checkNestedValidityFrom_after_digit (a : List Char) (dg : Char) (rest : List Char)
    (hdg : IsDigit dg) :
    ∀ r : Bool, checkNestedValidityFrom (a ++ dg :: rest) r = true →
      checkNestedValidityFrom rest true = true := by
  induction a with
  | nil =>
    intro r h
    simp only [List.nil_append] at h
    unfold checkNestedValidityFrom at h
    have hnl : ¬ ((dg = 'v' ∨ dg = 'c') ∧ r = false) := by
      rintro ⟨hl, _⟩
      exact isDigit_not_letter dg hdg hl.symm
    rw [if_neg hnl, if_pos ((isNumber_single dg).mpr (Or.inl hdg))] at h
    exact h
  | cons y a1 ih =>
    intro r h
    simp only [List.cons_append] at h
    unfold checkNestedValidityFrom at h
    split at h
    · exact ih _ h
    · split at h
      · exact ih _ h
      · exact absurd h (by simp)

theorem parseSide_letter (first : Char) (t : List Char) (lineNum side : Int)
    (hfirst : first = 'v' ∨ first = 'c') :
    parseSide (first :: t) lineNum side =
      if isNumber t then
        Except.ok (if first = 'v' then SideVar else SideCVar, parseNumber t, false)
      else if checkNestedValidity t then
        Except.ok (if first = 'v' then SideNestedVar else SideNestedCVar, 0, true)
      else Except.error Fault.malformedOperand := by
  have hcv : ('c' : Char) ≠ 'v' := by decide
  rcases hfirst with rfl | rfl
  · simp [parseSide]
  · simp [parseSide, hcv]

/-- C13 (as stated): `v-5` is classified as Variable with index -5, `vv5-3` as
NestedVariable, and the bare letters `v` and `c` as Variable 0 and CharVariable 0; none of
them is rejected as a malformed operand. -/
theorem minus_and_missing_digits_are_accepted :
    parseSide "v-5".toList 0 0 = Except.ok (SideVar, -5, false) ∧
      parseSide "vv5-3".toList 0 0 = Except.ok (SideNestedVar, 0, true) ∧
      parseSide "v".toList 0 0 = Except.ok (SideVar, 0, false) ∧
      parseSide "c".toList 0 0 = Except.ok (SideCVar, 0, false) := by
  decide

/-- C13 (amended): for a text `t` after the letter `v` (likewise `c`): when `t` is a
non-empty run of decimal digits, `parseSide` yields Variable (CharVariable) whose index
is the number the digits denote reduced to 64-bit two's complement, the number itself
when it is below 2^63; when `t` is a non-empty run of `v`/`c` letters followed by a
non-empty run of digits it yields NestedVariable (NestedCharVariable); when `t` contains a
character that is neither `v`, `c`, `-` nor a digit, or a `v`/`c` letter somewhere after
a digit, the operand is rejected as malformed. -/
theorem variable_operand_classification (first : Char) (t : List Char) (lineNum side : Int)
    (hfirst : first = 'v' ∨ first = 'c') :
    (t ≠ [] → (∀ x ∈ t, IsDigit x) →
        parseSide (first :: t) lineNum side =
            Except.ok (if first = 'v' then SideVar else SideCVar,
              wrap64 (decimalValue t : Int), false) ∧
          ((decimalValue t : Int) < 9223372036854775808 →
            wrap64 (decimalValue t : Int) = (decimalValue t : Int))) ∧
      (∀ p d, t = p ++ d → p ≠ [] → (∀ l ∈ p, l = 'v' ∨ l = 'c') → d ≠ [] →
        (∀ x ∈ d, IsDigit x) →
        parseSide (first :: t) lineNum side =
          Except.ok (if first = 'v' then SideNestedVar else SideNestedCVar, 0, true)) ∧
      ((∃ x ∈ t, x ≠ 'v' ∧ x ≠ 'c' ∧ x ≠ '-' ∧ ¬ IsDigit x) →
        parseSide (first :: t) lineNum side = Except.error Fault.malformedOperand) ∧
      ∀ a dg b l c, t = a ++ dg :: (b ++ l :: c) → IsDigit dg → (l = 'v' ∨ l = 'c') →
        parseSide (first :: t) lineNum side = Except.error Fault.malformedOperand := by
  rw [parseSide_letter first t lineNum side hfirst]
  refine ⟨?_, ?_, ?_, ?_⟩
  · intro _ hd
    have hnum : isNumber t = true := isNumberFrom_digits t hd 0
    rw [if_pos hnum, parseNumber_digits t hd]
    refine ⟨rfl, ?_⟩
    intro hlt
    unfold wrap64
    omega
  · intro p d ht hp hpl hd hdd
    subst ht
    have hnum : ¬ isNumber (p ++ d) = true := by
      intro h
      cases p with
      | nil => exact hp rfl
      | cons l rest =>
        have hl := hpl l (by simp)
        rcases isNumberFrom_chars _ 0 h l (by simp) with hdig | hm
        · exact isDigit_not_letter l hdig hl.symm
        · rw [hm] at hl
          exact absurd hl (by decide)
    have hnest : checkNestedValidity (p ++ d) = true :=
      checkNestedValidityFrom_chain p d hpl hdd
    rw [if_neg hnum, if_pos hnest]
  · rintro ⟨x, hx, hv, hc, hm, hd⟩
    have hnum : ¬ isNumber t = true := by
      intro h
      rcases isNumberFrom_chars t 0 h x hx with h1 | h1
      · exact hd h1
      · exact hm h1
    have hnest : ¬ checkNestedValidity t = true := by
      intro h
      rcases checkNestedValidityFrom_chars t false h x hx with h1 | h1 | h1 | h1
      · exact hv h1
      · exact hc h1
      · exact hd h1
      · exact hm h1
    rw [if_neg hnum, if_neg hnest]
  · intro a dg b l c ht hdg hl
    subst ht
    have hlnot : ¬ (IsDigit l ∨ l = '-') := by
      rintro (h | h)
      · exact isDigit_not_letter l h hl.symm
      · rw [h] at hl
        exact absurd hl (by decide)
    have hnum : ¬ isNumber (a ++ dg :: (b ++ l :: c)) = true := by
      intro h
      exact hlnot (isNumberFrom_chars _ 0 h l (by simp))
    have hnest : ¬ checkNestedValidity (a ++ dg :: (b ++ l :: c)) = true := by
      intro h
      have h1 := checkNestedValidityFrom_after_digit a dg (b ++ l :: c) hdg false h
      exact hlnot (checkNestedValidityFrom_reached _ h1 l (by simp))
    rw [if_neg hnum, if_neg hnest]

/-- Witness for `variable_operand_classification`: `v12` is Variable 12. -/
theorem variable_operand_classification_witness :
    parseSide ('v' :: "12".toList) 0 0 =
      Except.ok (if ('v' : Char) = 'v' then SideVar else SideCVar,
        wrap64 (decimalValue "12".toList : Int), false) ∧
      wrap64 (decimalValue "12".toList : Int) = 12 :=
  ⟨((variable_operand_classification 'v' "12".toList 0 0 (Or.inl rfl)).1 (by decide)
      (by decide)).1, by decide⟩


/-! ## Decimal round trip -/

theorem digitChar_toNat (d : Nat) (hd : d < 10) : (Char.ofNat (48 + d)).toNat = 48 + d := by
  interval_cases d <;> rfl

theorem decimalValue_append_single (xs : List Char) (c : Char) :
    decimalValue (xs ++ [c]) = 10 * decimalValue xs + (c.toNat - 48) := by
  unfold decimalValue
  rw [List.foldl_append]
  rfl

theorem renderNatFuel_spec (fuel : Nat) :
    ∀ n : Nat, n < fuel →
      renderNatFuel fuel n ≠ [] ∧ (∀ x ∈ renderNatFuel fuel n, IsDigit x) ∧
        decimalValue (renderNatFuel fuel n) = n := by
  induction fuel with
  | zero => intro n h; omega
  | succ fuel ih =>
    intro n hn
    unfold renderNatFuel
    by_cases hlt : n < 10
    · rw [if_pos hlt]
      have hc := digitChar_toNat n hlt
      refine ⟨by simp, ?_, ?_⟩
      · intro x hx
        rw [List.mem_singleton] at hx
        subst hx
        unfold IsDigit
        omega
      · unfold decimalValue
        simp only [List.foldl_cons, List.foldl_nil]
        omega
    · rw [if_neg hlt]
      have hq : n / 10 < fuel := by omega
      obtain ⟨_, hdig, hval⟩ := ih (n / 10) hq
      have hc := digitChar_toNat (n % 10) (by omega)
      refine ⟨by simp, ?_, ?_⟩
      · intro x hx
        rcases List.mem_append.mp hx with h | h
        · exact hdig x h
        · rw [List.mem_singleton] at h
          subst h
          unfold IsDigit
          omega
      · rw [decimalValue_append_single, hval]
        omega

theorem renderNat_spec (n : Nat) :
    renderNat n ≠ [] ∧ (∀ x ∈ renderNat n, IsDigit x) ∧ decimalValue (renderNat n) = n :=
  renderNatFuel_spec (n + 1) n (Nat.lt_succ_self n)

theorem wrap64_isInt64 (x : Int) : IsInt64 (wrap64 x) := by
  unfold IsInt64 wrap64
  omega

theorem parseNumberFrom_isInt64 (content : List Char) :
    ∀ (i : Nat) (isNegative : Bool) (n : Int), IsInt64 n →
      IsInt64 (parseNumberFrom i content (isNegative, n)).2 := by
  induction content with
  | nil => intro i isNegative n hn; exact hn
  | cons c rest ih =>
    intro i isNegative n hn
    unfold parseNumberFrom
    split
    · exact ih _ _ _ hn
    · exact ih _ _ _ (wrap64_isInt64 _)

theorem parseNumber_isInt64 (content : List Char) : IsInt64 (parseNumber content) := by
  unfold parseNumber
  simp only
  split
  · exact wrap64_isInt64 _
  · exact parseNumberFrom_isInt64 content 0 false 0 (by decide)

theorem renderInt_roundtrip (n : Int) (hn : IsInt64 n) :
    isNumber (renderInt n) = true ∧ parseNumber (renderInt n) = n := by
  unfold IsInt64 at hn
  unfold renderInt
  by_cases hneg : n < 0
  · rw [if_pos hneg]
    obtain ⟨_, hdig, hval⟩ := renderNat_spec n.natAbs
    have h0 : wrap64 ((0 : Nat) : Int) = 0 := by decide
    have hfrom := parseNumberFrom_digits (renderNat n.natAbs) 1 true 0 hdig
    rw [h0] at hfrom
    constructor
    · unfold isNumber isNumberFrom
      have : (('-' : Char).toNat ≥ 48 ∧ ('-' : Char).toNat ≤ 57) ∨
          (('-' : Char).toNat = 45 ∧ (0 : Nat) = 0) := Or.inr ⟨rfl, rfl⟩
      rw [if_pos this]
      exact isNumberFrom_digits _ hdig _
    · unfold parseNumber parseNumberFrom
      have : ('-' : Char).toNat = 45 ∧ (0 : Nat) = 0 := ⟨rfl, rfl⟩
      simp only [this, and_self, if_true]
      rw [hfrom]
      simp only [if_true]
      have hv : decimalValue (renderNat n.natAbs) = n.natAbs := hval
      unfold decimalValue at hv
      rw [hv]
      unfold wrap64
      omega
  · rw [if_neg hneg]
    obtain ⟨_, hdig, hval⟩ := renderNat_spec n.toNat
    refine ⟨isNumberFrom_digits _ hdig 0, ?_⟩
    rw [parseNumber_digits _ hdig, hval]
    unfold wrap64
    omega

/-- C14: for every signed 64-bit integer `n`, the least one included, `isNumber` accepts
the canonical decimal rendering of `n` and `parseNumber` maps it back to `n`; and for
every string `s` that `isNumber` accepts, parsing `s`, rendering the result and parsing
again gives the integer that parsing `s` gave. -/
theorem parse_render_roundtrip (n : Int) (s : List Char) (hn : IsInt64 n)
    (hs : isNumber s = true) :
    (isNumber (renderInt n) = true ∧ parseNumber (renderInt n) = n) ∧
      isNumber (renderInt (parseNumber s)) = true ∧
      parseNumber (renderInt (parseNumber s)) = parseNumber s :=
  ⟨renderInt_roundtrip n hn, renderInt_roundtrip _ (parseNumber_isInt64 s)⟩

/-- Witness for `parse_render_roundtrip`: the least `int64` and the string `-42`. -/
theorem parse_render_roundtrip_witness :
    IsInt64 (-9223372036854775808) ∧ isNumber "-42".toList = true ∧
      parseNumber (renderInt (-9223372036854775808)) = -9223372036854775808 ∧
      parseNumber (renderInt (parseNumber "-42".toList)) = parseNumber "-42".toList :=
  ⟨by decide, by decide,
    (parse_render_roundtrip (-9223372036854775808) "-42".toList (by decide) (by decide)).1.2,
    (parse_render_roundtrip (-9223372036854775808) "-42".toList (by decide)
      (by decide)).2.2⟩


/-! ## The range of the loop guard -/

/-- C15 (the code on a script of two lines): the loader gives source line 1 to slot 0
and source line 2 to slot 1; the loop guard breaks at `currentLine = 0` and at
`currentLine = 2`, the length of the program; at `currentLine = 1` the loop fetches slot 1,
the instruction of source line 2; and `execute`, which starts at 0, ends at once with
nothing fetched and nothing written, so the instruction of source line 1 is never
executed.  The loop started by hand at `currentLine = 1` runs source line 2 only. -/
theorem source_line_one_is_never_fetched :
    parseLines twoLineExample = Except.ok twoLineProgram ∧
      loopExit twoLineProgram 0 = true ∧
      fetch twoLineProgram 0 = none ∧
      (fetch twoLineProgram 1).map Line.lineNum = some 2 ∧
      loopExit twoLineProgram 2 = true ∧
      execute 10 twoLineProgram (initialState 1 1 []) =
        { outcome := Outcome.halted, final := initialState 1 1 [], fetched := 0 } ∧
      execLoop twoLineProgram 10 1 (initialState 1 1 []) 0 =
        { outcome := Outcome.halted,
          final := { initialState 1 1 [] with stdout := [Output.number 2] },
          fetched := 1 } := by
  decide

/-! ## Comment lines and no-op instructions -/

theorem scanChars_comment_left_phase (element : List Char) (rest : List Char) :
    ∀ (pre : List Char) (st : Scan) (k : Nat), element = pre ++ rest → st.currentSide = 0 →
      st.hasCode = false → st.previousChar = pre.getLast?.toList →
      element[pre.length + k]? = some '/' → element[pre.length + k + 1]? = some '/' →
      (∀ j, j < pre.length + k → element[j]? = some '>' →
        0 < j ∧ element[j - 1]? = some '\\') →
      (scanChars rest st).hasCode = false := by
  induction rest with
  | nil =>
    intro pre st k _ _ hc _ _ _ _
    simpa [scanChars] using hc
  | cons ch rest ih =>
    intro pre st k hel h0 hc hprev hk hk1 hno
    obtain ⟨prev, side, l, cmd, r, hcode⟩ := st
    simp only at h0 hc hprev
    subst h0 hc
    have hlast : pre ≠ [] → element[pre.length - 1]? = pre.getLast? := by
      intro hne
      have hlt : pre.length - 1 < pre.length := by
        have := List.length_pos.mpr hne
        omega
      rw [hel, List.getElem?_append_left hlt, List.getLast?_eq_getElem?]
    have hat : element[pre.length]? = some ch := by
      rw [hel, List.getElem?_append_right (Nat.le_refl _)]; simp
    unfold scanChars
    rw [scanBody_left_phase]
    by_cases hcom : ch = '/' ∧ prev = ['/']
    · rw [if_pos hcom]
    · rw [if_neg hcom]
      by_cases hgt : ch = '>' ∧ prev ≠ ['\\']
      · exfalso
        cases k with
        | zero =>
          rw [Nat.add_zero, hat, hgt.1] at hk
          exact absurd hk (by decide)
        | succ k1 =>
          have hj := hno pre.length (by omega) (by rw [hat, hgt.1])
          have hne : pre ≠ [] := List.length_pos.mp hj.1
          rw [hlast hne] at hj
          apply hgt.2
          rw [hprev, hj.2]
          rfl
      · rw [if_neg hgt]
        simp only
        cases k with
        | zero =>
          rw [Nat.add_zero] at hk hk1
          have hch : ch = '/' := by
            rw [hat] at hk
            exact Option.some.inj hk
          cases rest with
          | nil =>
            rw [hel] at hk1
            rw [List.getElem?_eq_none (by simp)] at hk1
            exact absurd hk1 (by simp)
          | cons ch2 rest2 =>
            have hch2 : ch2 = '/' := by
              rw [hel, List.getElem?_append_right (Nat.le_succ _)] at hk1
              simpa using hk1
            unfold scanChars
            rw [scanBody_left_phase, if_pos ⟨hch2, by rw [hch]⟩]
        | succ k1 =>
          refine ih (pre ++ [ch]) _ k1 (by simp [hel]) rfl rfl (by simp) ?_ ?_ ?_
          · rw [List.length_append, List.length_singleton]
            rw [← hk]; congr 1; omega
          · rw [List.length_append, List.length_singleton]
            rw [← hk1]; congr 1; omega
          · intro j hj
            rw [List.length_append, List.length_singleton] at hj
            exact hno j (by omega)

/-- C16: a line that holds a `//` pair with no `>` free of a preceding `\` before it (so
that the pair is met while the left operand is still being scanned; in particular a line
that starts with `//`) is loaded, without any panic, as the no-op instruction with
`hasCode = false` and its source line; and the step of the engine over any instruction
with `hasCode = false` leaves the whole state, both memory arrays included, as it was and
advances `currentLine` by exactly one. -/
theorem comment_line_is_noop (index : Nat) (element : List Char) (i : Nat)
    (hi : element[i]? = some '/') (hi1 : element[i + 1]? = some '/')
    (hphase : ∀ j, j < i → element[j]? = some '>' → 0 < j ∧ element[j - 1]? = some '\\') :
    parseLine index element =
        Except.ok { Line.zero with hasCode := false, lineNum := (index : Int) + 1 } ∧
      ∀ (line : Line) (currentLine : Int) (s : State), line.hasCode = false →
        stepLine line currentLine s = (Except.ok (currentLine + 1), s) := by
  constructor
  · have hscan : (scanChars element Scan.init).hasCode = false :=
      scanChars_comment_left_phase element element [] Scan.init i rfl rfl rfl rfl
        (by simpa using hi) (by simpa using hi1) (by simpa using hphase)
    unfold parseLine
    simp [hscan, Line.zero]
  · intro line currentLine s hcode
    unfold stepLine
    simp [hcode]

/-- Witness for `comment_line_is_noop`: the line `// comment`. -/
theorem comment_line_is_noop_witness :
    parseLine 0 "// comment".toList =
      Except.ok { Line.zero with hasCode := false, lineNum := ((0 : Nat) : Int) + 1 } :=
  (comment_line_is_noop 0 "// comment".toList 0 (by decide) (by decide)
    (by intro j hj; omega)).1


/-! ## A comment inside the right operand -/

theorem scanBody_right_phase (ch : Char) (prev l cmd r : List Char) :
    scanBody ch { previousChar := prev, currentSide := 2, leftSide := l, command := cmd,
                  rightSide := r, hasCode := false } =
      if ch = '/' ∧ prev = ['/'] then
        ({ previousChar := prev, currentSide := 2, leftSide := l, command := cmd,
           rightSide := r, hasCode := false }, true)
      else if ch = ';' then
        ({ previousChar := prev, currentSide := 2, leftSide := l, command := cmd,
           rightSide := r, hasCode := true }, true)
      else
        ({ previousChar := [ch], currentSide := 2, leftSide := l, command := cmd,
           rightSide := r ++ [ch], hasCode := false }, false) := by
  unfold scanBody
  by_cases hcom : ch = '/' ∧ prev = ['/']
  · simp [hcom]
  · by_cases hsemi : ch = ';'
    · simp [hcom, hsemi]
    · rw [if_neg hcom, if_neg hcom, if_neg hsemi]
      simp [hsemi]

theorem scanBody_command_phase (ch : Char) (l cmd r : List Char) :
    scanBody ch { previousChar := ['>'], currentSide := 1, leftSide := l, command := cmd,
                  rightSide := r, hasCode := false } =
      ({ previousChar := [ch], currentSide := 2, leftSide := l, command := [ch],
         rightSide := r, hasCode := false }, false) := by
  unfold scanBody
  simp

theorem scanChars_comment_right_phase (m post : List Char) (hsemi : ∀ x ∈ m, x ≠ ';') :
    ∀ prev l cmd r : List Char,
      (scanChars (m ++ '/' :: '/' :: post)
        { previousChar := prev, currentSide := 2, leftSide := l, command := cmd,
          rightSide := r, hasCode := false }).hasCode = false := by
  induction m with
  | nil =>
    intro prev l cmd r
    simp only [List.nil_append]
    unfold scanChars
    rw [scanBody_right_phase]
    by_cases hcom : ('/' : Char) = '/' ∧ prev = ['/']
    · rw [if_pos hcom]
    · have hns : ¬ ('/' : Char) = ';' := by decide
      rw [if_neg hcom, if_neg hns]
      simp only
      unfold scanChars
      rw [scanBody_right_phase, if_pos ⟨rfl, rfl⟩]
  | cons x rest ih =>
    intro prev l cmd r
    have hx : ¬ x = ';' := hsemi x (by simp)
    simp only [List.cons_append]
    unfold scanChars
    rw [scanBody_right_phase]
    by_cases hcom : x = '/' ∧ prev = ['/']
    · rw [if_pos hcom]
    · rw [if_neg hcom, if_neg hx]
      exact ih (fun y hy => hsemi y (by simp [hy])) _ _ _ _

theorem scanChars_comment_after_command (m post : List Char)
    (hsemi : ∀ x ∈ m.tail, x ≠ ';') (l cmd r : List Char) :
    (scanChars (m ++ '/' :: '/' :: post)
      { previousChar := ['>'], currentSide := 1, leftSide := l, command := cmd,
        rightSide := r, hasCode := false }).hasCode = false := by
  cases m with
  | nil =>
    simp only [List.nil_append]
    unfold scanChars
    rw [scanBody_command_phase]
    simp only
    unfold scanChars
    rw [scanBody_right_phase, if_pos ⟨rfl, rfl⟩]
  | cons c rest =>
    simp only [List.cons_append]
    unfold scanChars
    rw [scanBody_command_phase]
    exact scanChars_comment_right_phase rest post (by simpa using hsemi) _ _ _ _

theorem scanChars_until_first_gt (element : List Char) (tail : List Char)
    (htail : ∀ l cmd r : List Char,
      (scanChars tail
        { previousChar := ['>'], currentSide := 1, leftSide := l, command := cmd,
          rightSide := r, hasCode := false }).hasCode = false)
    (lft : List Char) :
    ∀ (pre : List Char) (st : Scan), element = pre ++ (lft ++ '>' :: tail) →
      st.currentSide = 0 → st.hasCode = false → st.previousChar = pre.getLast?.toList →
      FirstUnescapedGt element (pre.length + lft.length) →
      (scanChars (lft ++ '>' :: tail) st).hasCode = false := by
  induction lft with
  | nil =>
    intro pre st hel h0 hc hprev hfirst
    obtain ⟨prev, side, l, cmd, r, hcode⟩ := st
    simp only at h0 hc hprev
    subst h0 hc
    simp only [List.nil_append, List.length_nil, Nat.add_zero] at hel hfirst ⊢
    have hesc : prev ≠ ['\\'] := by
      intro hp
      rcases hfirst.2.1 with h | h
      · have hnil : pre = [] := List.length_eq_zero.mp h
        rw [hnil] at hprev
        rw [hp] at hprev
        simp at hprev
      · have hne : pre ≠ [] := by
          intro hnil
          rw [hnil] at hprev
          rw [hp] at hprev
          simp at hprev
        have hlt : pre.length - 1 < pre.length := by
          have := List.length_pos.mpr hne
          omega
        apply h
        rw [hel, List.getElem?_append_left hlt, ← List.getLast?_eq_getElem?]
        rw [hp] at hprev
        cases hgl : pre.getLast? with
        | none => rw [hgl] at hprev; simp at hprev
        | some p => rw [hgl] at hprev; simp at hprev; rw [hprev]
    unfold scanChars
    have hnc : ¬ (('>' : Char) = '/' ∧ prev = ['/']) := by
      rintro ⟨h, _⟩; exact absurd h (by decide)
    rw [scanBody_left_phase, if_neg hnc, if_pos ⟨rfl, hesc⟩]
    exact htail _ _ _
  | cons ch rest ih =>
    intro pre st hel h0 hc hprev hfirst
    obtain ⟨prev, side, l, cmd, r, hcode⟩ := st
    simp only at h0 hc hprev
    subst h0 hc
    have hlast : pre ≠ [] → element[pre.length - 1]? = pre.getLast? := by
      intro hne
      have hlt : pre.length - 1 < pre.length := by
        have := List.length_pos.mpr hne
        omega
      rw [hel, List.getElem?_append_left hlt, List.getLast?_eq_getElem?]
    have hat : element[pre.length]? = some ch := by
      rw [hel, List.getElem?_append_right (Nat.le_refl _)]; simp
    simp only [List.cons_append]
    unfold scanChars
    rw [scanBody_left_phase]
    by_cases hcom : ch = '/' ∧ prev = ['/']
    · rw [if_pos hcom]
    · rw [if_neg hcom]
      by_cases hgt : ch = '>' ∧ prev ≠ ['\\']
      · exfalso
        have hj := hfirst.2.2 pre.length (by simp) (by rw [hat, hgt.1])
        have hne : pre ≠ [] := List.length_pos.mp hj.1
        rw [hlast hne] at hj
        apply hgt.2
        rw [hprev, hj.2]
        rfl
      · rw [if_neg hgt]
        refine ih (pre ++ [ch]) _ (by simp [hel]) rfl rfl (by simp) ?_
        have hlen : (pre ++ [ch]).length + rest.length = pre.length + (ch :: rest).length := by
          simp; omega
        rw [hlen]
        exact hfirst

/-- C17 (as stated): in `1>>v//0;` the `//` pair is met in the right-operand phase; the
scan stops there with `v/` as right operand text and `hasCode = false`, and the line is
loaded as a no-op, not as an executable instruction. -/
theorem comment_in_right_operand_stops_scan :
    (scanChars "1>>v//0;".toList Scan.init).rightSide = "v/".toList ∧
      (scanChars "1>>v//0;".toList Scan.init).hasCode = false ∧
      parseLine 0 "1>>v//0;".toList =
        Except.ok { Line.zero with hasCode := false, lineNum := 1 } := by
  decide

/-- C17 (amended): for every line whose first `>` free of a preceding `\` is followed by
a text `m` and then a `//` pair, no `;` standing in `m` after its first character (the
operator), so that the pair is met in the right-operand phase before the terminating `;`:
the scan is aborted at the pair and the line is loaded, without any panic, as the no-op
instruction with `hasCode = false`, whatever follows the pair. -/
theorem comment_in_right_operand_is_noop (index : Nat) (element lft m post : List Char)
    (hel : element = lft ++ '>' :: (m ++ '/' :: '/' :: post))
    (hfirst : FirstUnescapedGt element lft.length) (hsemi : ∀ x ∈ m.tail, x ≠ ';') :
    (scanChars element Scan.init).hasCode = false ∧
      parseLine index element =
        Except.ok { Line.zero with hasCode := false, lineNum := (index : Int) + 1 } := by
  have hscan : (scanChars element Scan.init).hasCode = false := by
    have h := scanChars_until_first_gt element (m ++ '/' :: '/' :: post)
      (fun l cmd r => scanChars_comment_after_command m post hsemi l cmd r) lft []
      Scan.init (by simpa using hel) rfl rfl rfl (by simpa using hfirst)
    rw [hel]
    exact h
  refine ⟨hscan, ?_⟩
  unfold parseLine
  simp [hscan, Line.zero]

/-- Witness for `comment_in_right_operand_is_noop`: the line `1>>v//0;`. -/
theorem comment_in_right_operand_is_noop_witness :
    FirstUnescapedGt "1>>v//0;".toList "1".toList.length ∧
      parseLine 0 "1>>v//0;".toList =
        Except.ok { Line.zero with hasCode := false, lineNum := ((0 : Nat) : Int) + 1 } :=
  ⟨⟨by decide, by decide, by intro j hj; have hj1 : j < 1 := hj; interval_cases j; decide⟩,
    (comment_in_right_operand_is_noop 0 "1>>v//0;".toList "1".toList ">v".toList
      "0;".toList (by decide)
      ⟨by decide, by decide, by intro j hj; have hj1 : j < 1 := hj; interval_cases j; decide⟩
      (by decide)).2⟩


/-! ## Character literals on the left -/

theorem scanChars_char_literal_line (x : Char) (hx : x ≠ '\\') :
    scanChars ['\\', x, '>', '>', 'r', ';'] Scan.init =
      { previousChar := ['r'], currentSide := 2, leftSide := ['\\', x], command := ['>'],
        rightSide := ['r'], hasCode := true } := by
  have h1 : ¬ (('\\' : Char) = '/' ∧ ([] : List Char) = ['/']) := by decide
  have h2 : ¬ (('\\' : Char) = '>' ∧ ([] : List Char) ≠ ['\\']) := by decide
  have h3 : ¬ (x = '/' ∧ ['\\'] = ['/']) := by
    rintro ⟨_, h⟩; exact absurd h (by decide)
  have h4 : ¬ (x = '>' ∧ ['\\'] ≠ ['\\']) := by
    rintro ⟨_, h⟩; exact h rfl
  have h5 : ¬ (('>' : Char) = '/' ∧ [x] = ['/']) := by
    rintro ⟨h, _⟩; exact absurd h (by decide)
  have h6 : ('>' : Char) = '>' ∧ [x] ≠ ['\\'] := by
    refine ⟨rfl, ?_⟩
    intro h
    exact hx (by simpa using h)
  have h7 : ¬ (('r' : Char) = '/' ∧ ['>'] = ['/']) := by decide
  have h8 : ¬ ('r' : Char) = ';' := by decide
  have h9 : ¬ ((';' : Char) = '/' ∧ ['r'] = ['/']) := by decide
  unfold Scan.init
  unfold scanChars
  rw [scanBody_left_phase, if_neg h1, if_neg h2]
  simp only
  unfold scanChars
  rw [scanBody_left_phase, if_neg h3, if_neg h4]
  simp only
  unfold scanChars
  rw [scanBody_left_phase, if_neg h5, if_pos h6]
  simp only
  unfold scanChars
  rw [scanBody_command_phase]
  simp only
  unfold scanChars
  rw [scanBody_right_phase, if_neg h7, if_neg h8]
  simp only
  unfold scanChars
  rw [scanBody_right_phase, if_neg h9, if_pos rfl]
  rfl

/-- C18 (as stated): with `x` the backslash, the line `\\>>r;` is not parsed to a Move
instruction: the first `>` follows a `\` and is kept in the left operand, so the scan
takes `r` as the operator and the load stops with the invalid-command panic. -/
theorem backslash_literal_line_is_invalid_command :
    parseLine 0 ['\\', '\\', '>', '>', 'r', ';'] = Except.error Fault.invalidCommand := by
  decide

/-- C18 (amended): for every single-byte character `x` other than `\`, the line made of
`\`, `x`, `>`, `>`, `r`, `;` parses without any panic to an executable Move instruction
whose left operand is the character literal with the code of `x` and whose right operand
is the raw output; this holds in particular when `x` is `>`. -/
theorem char_literal_line (index : Nat) (x : Char) (hbyte : x.utf8Size = 1)
    (hx : x ≠ '\\') :
    parseLine index ['\\', x, '>', '>', 'r', ';'] =
      Except.ok { left := SideCharacter, leftParam := (x.toNat : Int), sign := SignWrite,
                  right := SideOutputRaw, rightParam := 0, hasCode := true,
                  lineNum := (index : Int) + 1, leftNest := [], rightNest := [] } := by
  have hlen : goLen ['\\', x] = 2 := by
    simp only [goLen, List.map_cons, List.map_nil, List.sum_cons, List.sum_nil, hbyte]
    rfl
  have hb : ('\\' : Char).utf8Size = 1 := by decide
  have hr : ('r' : Char).utf8Size = 1 := by decide
  unfold parseLine
  rw [scanChars_char_literal_line x hx]
  simp [signOfCommand, parseSide, isInput, rightRoleOk, isOutput, goLen, Line.zero, hbyte,
    hb, hr]

/-- Witness for `char_literal_line`: the character `>` itself, in the line `\>>>r;`. -/
theorem char_literal_line_witness :
    parseLine 0 ['\\', '>', '>', '>', 'r', ';'] =
      Except.ok { left := SideCharacter, leftParam := (('>' : Char).toNat : Int),
                  sign := SignWrite, right := SideOutputRaw, rightParam := 0, hasCode := true,
                  lineNum := ((0 : Nat) : Int) + 1, leftNest := [], rightNest := [] } :=
  char_literal_line 0 '>' (by decide) (by decide)


/-! ## Slots and source lines -/

theorem parseLinesFrom_length (lines : List (List Char)) :
    ∀ (index : Nat) (parsedLines : List Line),
      parseLinesFrom index lines = Except.ok parsedLines →
      parsedLines.length = lines.length := by
  induction lines with
  | nil =>
    intro index parsedLines h
    simp [parseLinesFrom] at h
    subst h
    rfl
  | cons element rest ih =>
    intro index parsedLines h
    unfold parseLinesFrom at h
    split at h
    · exact absurd h (by simp)
    · split at h
      · exact absurd h (by simp)
      · next others hothers =>
        injection h with h
        subst h
        simp [ih (index + 1) others hothers]

/-- C19: when the load of a script of `n` lines completes, the program has exactly `n`
instructions and the instruction in 0-based slot `i` has source line `i + 1` whether or
not it has code.  While that instruction executes, a LineNumber operand yields `i + 1`:
whenever the loop is at `currentLine = i` (with `1 ≤ i`, as its guard demands) it runs
`stepLine` on that very instruction, and the step of an instruction whose left (right)
operand is LineNumber is, for every operator, `currentLine` and state, the step of the
same instruction with the number literal `i + 1` as left (right) operand; in particular
`l>>o;` in slot `i` prints `i + 1`.  The read itself returns `i + 1` and leaves the state
as it was. -/
theorem loader_numbers_lines (lines : List (List Char)) (parsedLines : List Line)
    (hload : parseLines lines = Except.ok parsedLines) :
    parsedLines.length = lines.length ∧
      ∀ (i : Nat) (line : Line), parsedLines[i]? = some line →
        line.lineNum = (i : Int) + 1 ∧
          (∀ (param : Int) (nest : List Char) (s : State),
            readInput SideLineNumber param nest line.lineNum s =
              (Except.ok ((i : Int) + 1), s)) ∧
          (1 ≤ i → ∀ (fuel : Nat) (s : State) (n : Nat),
            execLoop parsedLines (fuel + 1) (i : Int) s n =
              match stepLine line (i : Int) s with
              | (Except.error f, s1) => { outcome := Outcome.fault f, final := s1,
                                          fetched := n + 1 }
              | (Except.ok next, s1) => execLoop parsedLines fuel next s1 (n + 1)) ∧
          (line.left = SideLineNumber → ∀ (currentLine : Int) (s : State),
            stepLine line currentLine s =
              stepLine { line with left := SideNumber, leftParam := (i : Int) + 1 }
                currentLine s) ∧
          (line.right = SideLineNumber → ∀ (currentLine : Int) (s : State),
            stepLine line currentLine s =
              stepLine { line with right := SideNumber, rightParam := (i : Int) + 1 }
                currentLine s) ∧
          (line.hasCode = true → line.sign = SignWrite → line.left = SideLineNumber →
            line.right = SideSTDOutput → ∀ (currentLine : Int) (s : State),
            stepLine line currentLine s =
              (Except.ok (currentLine + 1),
                { s with stdout := s.stdout ++ [Output.number ((i : Int) + 1)] })) := by
  refine ⟨parseLinesFrom_length lines 0 parsedLines hload, ?_⟩
  intro i line hi
  have hnum := parseLines_lineNum lines parsedLines hload i line hi
  have hlt : i < parsedLines.length := by
    by_contra hge
    rw [List.getElem?_eq_none (by omega)] at hi
    exact absurd hi (by simp)
  refine ⟨hnum, ?_, ?_, ?_, ?_, ?_⟩
  · intro param nest s
    simp [readInput, hnum]
  · intro hi1 fuel s n
    have hguard : loopExit parsedLines (i : Int) = false := by
      unfold loopExit
      have : ¬ ((i : Int) ≥ (parsedLines.length : Int) ∨ (i : Int) < 1) := by omega
      simp only [this, decide_False]
    have hget : goIndex parsedLines (i : Int) = some line := by
      unfold goIndex
      have : ¬ (i : Int) < 0 := by omega
      simpa [this] using hi
    rw [execLoop]
    simp only [hguard, hget]
    rfl
  · intro hleft currentLine s
    obtain ⟨left, leftParam, sign, right, rightParam, hasCode, lineNum, leftNest,
      rightNest⟩ := line
    simp only at hleft hnum
    subst hleft hnum
    cases hasCode <;> cases sign <;> simp [stepLine, readBoth, readInput]
  · intro hright currentLine s
    obtain ⟨left, leftParam, sign, right, rightParam, hasCode, lineNum, leftNest,
      rightNest⟩ := line
    simp only at hright hnum
    subst hright hnum
    cases hasCode <;> cases sign <;> simp [stepLine, readBoth, readInput, writeOutput]
  · intro hcode hsign hleft hright currentLine s
    simp [stepLine, hcode, hsign, hleft, hright, readInput, writeOutput, hnum]

/-- Witness for `loader_numbers_lines`: in the script `lineNumberExample` the instruction
`l>>o;` sits in slot 1; the loop at `currentLine = 1` runs it and prints 2. -/
theorem loader_numbers_lines_witness :
    parseLines lineNumberExample = Except.ok lineNumberProgram ∧
      lineNumberProgram.length = lineNumberExample.length ∧
      lineNumberProgram[1]? = some lineNumberLine ∧
      stepLine lineNumberLine 1 (initialState 1 1 []) =
        (Except.ok (1 + 1),
          { initialState 1 1 [] with
            stdout := (initialState 1 1 []).stdout ++ [Output.number (((1 : Nat) : Int) + 1)] }) ∧
      execLoop lineNumberProgram 10 1 (initialState 1 1 []) 0 =
        { outcome := Outcome.halted,
          final := { initialState 1 1 [] with stdout := [Output.number 2] },
          fetched := 1 } :=
  ⟨by decide, (loader_numbers_lines lineNumberExample lineNumberProgram (by decide)).1,
    by decide,
    ((loader_numbers_lines lineNumberExample lineNumberProgram (by decide)).2 1
      lineNumberLine (by decide)).2.2.2.2.2 rfl rfl rfl rfl 1 (initialState 1 1 []),
    by decide⟩

/-! ## Character variables hold bytes -/

theorem toByte_cast (x : Int) : ((toByte x).val : Int) = x % 256 := by
  simp only [toByte]
  omega

theorem readInput_cvar (k : Int) (nest : List Char) (lineNum : Int) (s : State) (b : Byte)
    (hk0 : 0 ≤ k) (hk : k ≤ s.cvars) (hb : s.memCVar[k.toNat]? = some b) :
    readInput SideCVar k nest lineNum s = (Except.ok (b.val : Int), s) := by
  have h2 : ¬ k < 0 := by omega
  simp [readInput, goIndex, h2, hb, hk]

theorem writeOutput_cvar (k : Int) (nest : List Char) (value lineNum : Int) (s : State)
    (hk0 : 0 ≤ k) (hk : k ≤ s.cvars) (hlen : k.toNat < s.memCVar.length) :
    writeOutput SideCVar k nest value lineNum s =
      (Except.ok (), { s with memCVar := s.memCVar.set k.toNat (toByte value) }) := by
  have h2 : ¬ k < 0 := by omega
  simp [writeOutput, goStore, h2, hk, hk0, hlen]

theorem readInput_byte_range (side : SideType) (param : Int) (nest : List Char)
    (lineNum v : Int) (s s1 : State) (hside : side = SideCVar ∨ side = SideNestedCVar)
    (hr : readInput side param nest lineNum s = (Except.ok v, s1)) : 0 ≤ v ∧ v ≤ 255 := by
  obtain ⟨_, c, hcell, hval⟩ := readInput_memory_cell side param nest lineNum v s s1
    (by rcases hside with h | h <;> simp [h]) hr
  have hc : ∃ j, c = Cell.cvar j := by
    rcases hside with rfl | rfl
    · simp only [cellOf] at hcell
      exact ⟨param, (Option.some.inj hcell).symm⟩
    · simp only [cellOf] at hcell
      split at hcell
      · next index _ => exact ⟨index, (Option.some.inj hcell).symm⟩
      · exact absurd hcell (by simp)
  obtain ⟨j, rfl⟩ := hc
  simp only [State.cell] at hval
  cases hb : goIndex s.memCVar j with
  | none => rw [hb] at hval; exact absurd hval (by simp)
  | some b =>
    rw [hb] at hval
    have hv : (b.val : Int) = v := by simpa using hval
    have := b.isLt
    omega

/-- C20: on an allocated memory, for every value `x` and every character-variable index
`k` with `0 ≤ k < cvars`: writing `x` to CharVariable `k`, directly or through a
NestedCharVariable whose chain resolves to `k`, succeeds, and reading CharVariable `k`
afterwards yields `x mod 256`, a value of `[0, 255]`; every value read from a character
variable, direct or nested, lies in `[0, 255]`; and an Add, Subtract, Multiply or Divide
whose right operand is CharVariable `k`, or a NestedCharVariable resolving to `k`, and
whose computed value is `value` completes and leaves `value mod 256` to be read from
CharVariable `k`. -/
theorem char_variable_holds_low_byte (s : State) (k x : Int) (halloc : s.Allocated)
    (hk0 : 0 ≤ k) (hk : k < s.cvars) :
    (∃ s1,
        (∀ nest lineNum, writeOutput SideCVar k nest x lineNum s = (Except.ok (), s1)) ∧
        (∀ param chain lineNum, resolveNumberFromNest s chain = Except.ok k →
          writeOutput SideNestedCVar param chain x lineNum s = (Except.ok (), s1)) ∧
        (∀ nest lineNum, readInput SideCVar k nest lineNum s1 = (Except.ok (x % 256), s1)) ∧
        0 ≤ x % 256 ∧ x % 256 ≤ 255) ∧
      (∀ side param nest lineNum v (t t1 : State),
        side = SideCVar ∨ side = SideNestedCVar →
        readInput side param nest lineNum t = (Except.ok v, t1) → 0 ≤ v ∧ v ≤ 255) ∧
      ∀ (workingLine : Line) (currentLine a b value : Int) (s2 : State),
        workingLine.hasCode = true →
        (workingLine.sign = SignAdd ∨ workingLine.sign = SignSubtract ∨
          workingLine.sign = SignMultiply ∨ workingLine.sign = SignDivide) →
        ((workingLine.right = SideCVar ∧ workingLine.rightParam = k) ∨
          (workingLine.right = SideNestedCVar ∧
            resolveNumberFromNest s workingLine.rightNest = Except.ok k)) →
        readBoth workingLine s = (Except.ok (a, b), s2) →
        arithValue workingLine.sign a b = Except.ok value →
        ∃ s3, stepLine workingLine currentLine s = (Except.ok (currentLine + 1), s3) ∧
          ∀ nest lineNum,
            readInput SideCVar k nest lineNum s3 = (Except.ok (value % 256), s3) := by
  obtain ⟨_, hcv⟩ := halloc
  have hlen : k.toNat < s.memCVar.length := by omega
  have hread : ∀ (t : State) (y : Int), t.cvars = s.cvars → t.memCVar = s.memCVar →
      ∀ nest lineNum,
        readInput SideCVar k nest lineNum
            { t with memCVar := t.memCVar.set k.toNat (toByte y) } =
          (Except.ok (y % 256), { t with memCVar := t.memCVar.set k.toNat (toByte y) }) := by
    intro t y htc htm nest lineNum
    rw [readInput_cvar k nest lineNum _ (toByte y) hk0 (by simp only; omega)
      (by simp only; rw [htm]; simp [hlen]), toByte_cast]
  refine ⟨⟨{ s with memCVar := s.memCVar.set k.toNat (toByte x) }, ?_, ?_, ?_, ?_, ?_⟩, ?_, ?_⟩
  · intro nest lineNum
    exact writeOutput_cvar k nest x lineNum s hk0 (by omega) hlen
  · intro param chain lineNum hres
    have hst : goStore s.memCVar k (toByte x) = some (s.memCVar.set k.toNat (toByte x)) := by
      simp [goStore, hk0, hlen]
    simp [writeOutput, hres, hst]
  · exact hread s x rfl rfl
  · omega
  · omega
  · intro side param nest lineNum v t t1 hside hr
    exact readInput_byte_range side param nest lineNum v t t1 hside hr
  · intro workingLine currentLine a b value s2 hcode hsign hright hboth hval
    have hframe := readBoth_frame workingLine s
    rw [hboth] at hframe
    obtain ⟨hmv, hm, hvars, hc⟩ := hframe
    simp only at hmv hm hvars hc
    have hwrite : writeOutput workingLine.right workingLine.rightParam workingLine.rightNest
        value workingLine.lineNum s2 =
          (Except.ok (), { s2 with memCVar := s2.memCVar.set k.toNat (toByte value) }) := by
      rcases hright with ⟨hright, hparam⟩ | ⟨hright, hres⟩
      · rw [hright, hparam]
        exact writeOutput_cvar k _ value _ s2 hk0 (by omega) (by rw [hm]; exact hlen)
      · have hres2 : resolveNumberFromNest s2 workingLine.rightNest = Except.ok k := by
          rw [resolveNumberFromNest_congr s s2 hmv hm hvars hc]; exact hres
        have hlen2 : k.toNat < s2.memCVar.length := by rw [hm]; exact hlen
        have hst : goStore s2.memCVar k (toByte value) =
            some (s2.memCVar.set k.toNat (toByte value)) := by
          simp [goStore, hk0, hlen2]
        rw [hright]
        simp [writeOutput, hres2, hst]
    refine ⟨{ s2 with memCVar := s2.memCVar.set k.toNat (toByte value) }, ?_,
      hread s2 value hc hm⟩
    unfold stepLine
    rcases hsign with h | h | h | h <;>
    · rw [h] at hval
      simp [hcode, h, hboth, hval, hwrite]

/-- Witness for `char_variable_holds_low_byte`: 300 written to character variable 1 of
the zero-initialised memory reads back as 44. -/
theorem char_variable_holds_low_byte_witness :
    (initialState 1 2 []).Allocated ∧ (1 : Int) < (initialState 1 2 []).cvars ∧
      ∃ s1,
        (∀ nest lineNum,
          writeOutput SideCVar 1 nest 300 lineNum (initialState 1 2 []) = (Except.ok (), s1)) ∧
        (∀ param chain lineNum,
          resolveNumberFromNest (initialState 1 2 []) chain = Except.ok 1 →
          writeOutput SideNestedCVar param chain 300 lineNum (initialState 1 2 []) =
            (Except.ok (), s1)) ∧
        (∀ nest lineNum,
          readInput SideCVar 1 nest lineNum s1 = (Except.ok (300 % 256), s1)) ∧
        (0 : Int) ≤ 300 % 256 ∧ (300 : Int) % 256 ≤ 255 :=
  ⟨by decide, by decide,
    (char_variable_holds_low_byte (initialState 1 2 []) 1 300 (by decide) (by decide)
      (by decide)).1⟩

end ESScript
